import Mathlib

/-!
Shallow embedding of the dysgu core (src/dysgu/coverage.pyx and
src/dysgu/graph.pyx) and verification of the specification claims.

Conventions used throughout:
* Python/C floating point values are modelled as exact rationals (ℚ);
  none of the verified properties depends on rounding at representation
  boundaries.
* C/Python integer casts `<int> x` / `int(x)` truncate toward zero; this is
  `truncToInt` below.
* Fallible code (Python `IndexError` / `ZeroDivisionError`) is modelled with
  `Option`.
* External collaborators that are not part of the two source files
  (`io_funcs.intersecter_int_chrom`, `map_set_utils.span_position_distance`,
  `map_set_utils.is_reciprocal_overlapping`, the reference-length lookup)
  are passed as explicit function parameters, or modelled from the spec where
  a concrete value is needed (marked `Modelled from the spec:`).
-/

set_option maxRecDepth 10000

namespace Dysgu

/-- Truncation of a rational toward zero, the semantics of C `<int>` casts and
Python `int(...)` on floats. -/
def truncToInt (q : ℚ) : ℤ :=
  if 0 ≤ q then ⌊q⌋ else ⌈q⌉

/-! ### coverage.pyx: insert-size statistics -/

/-- Embedding of `median` (coverage.pyx lines 65-70).  The Python code indexes
`L[mid]` and `L[mid+1]`; on an empty list this raises `IndexError`, modelled
as `none`.  (For an even length `n ≥ 2` the indices are in range; the Python
negative index `-1` can only arise for `n = 0`.) -/
def median (L : List ℚ) : Option ℚ :=
  if L.length % 2 = 1 then
    L[L.length / 2]?
  else
    let mid := L.length / 2 - 1
    match L[mid]?, L[mid + 1]? with
    | some a, some b => some ((a + b) / 2)
    | _, _ => none

/-- Embedding of `unscaled_upper_mad` (coverage.pyx lines 73-81) applied to an
already sorted list: the source sorts `xs` in place and then takes the median
of the whole list and of the positive deviations above it.  The sequential
fallible statements are chained with `Option.bind`. -/
def unscaled_upper_mad (s : List ℚ) : Option (ℚ × ℚ) :=
  (median s).bind fun med =>
    (median ((s.filter (fun x => decide (med < x))).map (fun x => x - med))).map
      fun umad => (med, umad)

/-- Embedding of `mean_std` (coverage.pyx lines 84-91).  The variable called
`mean` in the source is in fact `np.median(L)` (which fails on an empty list,
hence the `Option`); the second component returned here is the variance
`sq_sum / len(L)` (the source returns `var ** 0.5`; we stay with the square to
remain in ℚ — all statements below are phrased on the square). -/
def mean_std (L : List ℚ) : Option (ℚ × ℚ) :=
  (median (L.insertionSort (· ≤ ·))).map fun m =>
    (m, (L.foldl (fun acc v => acc + (v - m) ^ 2) 0) / (L.length : ℚ))

/-- Embedding of `get_insert_params` (coverage.pyx lines 94-103) with the
default `mads = 8`.  `unscaled_upper_mad` sorts the caller's list in place, so
the subsequent filter runs over the sorted list. -/
def get_insert_params (L : List ℚ) : Option (ℚ × ℚ) :=
  let s := L.insertionSort (· ≤ ·)
  (unscaled_upper_mad s).bind fun mu =>
    mean_std (s.filter (fun v => decide (v < mu.1 + 8 * mu.2)))

/-- Modelled from the spec: the arithmetic mean of a list, used to compare the
value actually returned by `get_insert_params` with the claim's words. -/
def listMean (L : List ℚ) : ℚ := L.sum / (L.length : ℚ)

/-! ### coverage.pyx: add_coverage -/

/-- Embedding of `add_coverage` (coverage.pyx lines 388-412) on a ℚ-valued
depth array.  Out-of-range writes (impossible under the claims' bounds
hypotheses; unchecked in the C source) are modelled by `List.set`'s no-op
behaviour. -/
def add_coverage (start stop : ℤ) (chrom_depth : List ℚ) : ℚ × List ℚ :=
  let fs : ℚ := (start : ℚ) / 100
  let fe : ℚ := (stop : ℚ) / 100
  let bin_start0 : ℤ := truncToInt fs
  let bin_end0 : ℤ := truncToInt fe
  let bin_start : ℤ := if bin_start0 < 0 then 0 else bin_start0
  let bin_end : ℤ :=
    if bin_end0 > (chrom_depth.length : ℤ) - 1 then (chrom_depth.length : ℤ) - 1 else bin_end0
  let ol_start : ℚ := (bin_start : ℚ) + 1 - fs
  let d1 := chrom_depth.set bin_start.toNat (chrom_depth.getD bin_start.toNat 0 + ol_start)
  let d2 :=
    if bin_start ≠ bin_end then
      let ol_end : ℚ := fe - (bin_end : ℚ)
      let d := d1.set bin_end.toNat (d1.getD bin_end.toNat 0 + ol_end)
      if bin_end - bin_start > 1 then
        (List.range' (bin_start.toNat + 1) (bin_end - bin_start - 1).toNat).foldl
          (fun a i => a.set i (a.getD i 0 + 1)) d
      else d
    else d1
  (d2.getD bin_start.toNat 0, d2)

/-- Modelled from the spec: the fraction the spec says the start bin gains,
`(⌈start/100⌉·100 − start)/100`. -/
def spec_start_bin_fraction (start : ℤ) : ℚ :=
  ((⌈(start : ℚ) / 100⌉ * 100 - start : ℤ) : ℚ) / 100

/-! ### coverage.pyx: GenomeScanner._add_to_bin_buffer -/

/-- An alignment record as used by `_add_to_bin_buffer`: the fields the routine
reads.  `cigartuples`/`seq` are `Option`s because the source checks them
against `None`. -/
structure AlnRecord where
  flag : ℕ
  cigartuples : Option (List (ℤ × ℤ))
  seq : Option String
  rname : ℤ
  pos : ℤ
  reference_end : ℤ
deriving DecidableEq

/-- The mutable state of `GenomeScanner` touched by `_add_to_bin_buffer`.
`depth_d` is an association list from reference id to its depth array; the
source's `current_cov_array` is an alias of `depth_d[rname]` and therefore not
modelled separately. -/
structure ScannerState where
  max_cov : ℚ
  staged_reads : List (List (AlnRecord × ℤ))
  current_bin : List (AlnRecord × ℤ)
  current_chrom : ℤ
  current_pos : ℤ
  depth_d : List (ℤ × List ℚ)
  reads_dropped : ℤ
deriving DecidableEq

/-- Lookup in the `depth_d` association list. -/
def depthLookup (l : List (ℤ × List ℚ)) (k : ℤ) : Option (List ℚ) :=
  (l.find? (fun p => decide (p.1 = k))).map Prod.snd

/-- Replace the entry for key `k` in the `depth_d` association list. -/
def depthUpdate (l : List (ℤ × List ℚ)) (k : ℤ) (v : List ℚ) : List (ℤ × List ℚ) :=
  l.map (fun p => if p.1 = k then (k, v) else p)

/-- Embedding of `GenomeScanner._add_to_bin_buffer` (coverage.pyx lines
332-385).  `ref_length` stands for
`input_bam.get_reference_length(get_reference_name rname)` and `in_roi_f` for
the region-of-interest intersection test, both external collaborators.
Note that the source updates `self.current_chrom` to `rname` (lines 357-358)
before the `rname == self.current_chrom` test on line 369, and that in the
over-coverage branch `reads_dropped += len(self.current_bin)` runs after
`self.current_bin = []`. -/
def add_to_bin_buffer (ref_length : ℤ → ℤ) (in_roi_f : ℤ → ℤ → Bool)
    (s : ScannerState) (a : AlnRecord) (tell : ℤ) : ScannerState :=
  if a.flag &&& 1540 ≠ 0 ∨ a.cigartuples = none ∨ a.seq = none then s
  else
    let bin_pos : ℤ := truncToInt ((a.pos : ℚ) / 100)
    let depth_d1 :=
      if depthLookup s.depth_d a.rname = none then
        s.depth_d ++ [(a.rname, List.replicate (truncToInt ((ref_length a.rname : ℚ) / 100) + 1).toNat 0)]
      else s.depth_d
    let s1 := if s.current_chrom ≠ a.rname then { s with current_chrom := a.rname } else s
    let arr := (depthLookup depth_d1 a.rname).getD []
    let step := add_coverage a.pos a.reference_end arr
    let current_cov := step.1
    let depth_d2 := depthUpdate depth_d1 a.rname step.2
    let in_roi := in_roi_f a.rname a.pos
    if a.rname = s1.current_chrom ∧ bin_pos = s1.current_pos then
      if current_cov ≥ s1.max_cov ∧ ¬ in_roi then
        let s2 :=
          if s1.current_bin.length > 0 then
            let s3 := { s1 with current_bin := [] }
            { s3 with reads_dropped := s3.reads_dropped + s3.current_bin.length }
          else s1
        { s2 with reads_dropped := s2.reads_dropped + 1, depth_d := depth_d2 }
      else
        { s1 with current_bin := s1.current_bin ++ [(a, tell)], depth_d := depth_d2 }
    else
      let s2 :=
        if s1.current_bin.length ≠ 0 ∧ (current_cov < s1.max_cov ∨ in_roi) then
          { s1 with staged_reads := s1.staged_reads ++ [s1.current_bin] }
        else s1
      { s2 with current_chrom := a.rname, current_pos := bin_pos,
                current_bin := [(a, tell)], depth_d := depth_d2 }

/-! ### Helper lemmas about `median` -/

lemma median_isSome {s : List ℚ} (h : s ≠ []) : ∃ m, median s = some m := by
  have hlen : 0 < s.length := List.length_pos.mpr h
  unfold median
  by_cases hmod : s.length % 2 = 1
  · rw [if_pos hmod]
    have hlt : s.length / 2 < s.length := by omega
    exact ⟨s[s.length / 2], by simp [List.getElem?_eq_getElem hlt]⟩
  · rw [if_neg hmod]
    have h1 : s.length / 2 - 1 < s.length := by omega
    have h2 : s.length / 2 - 1 + 1 < s.length := by omega
    refine ⟨(s[s.length / 2 - 1] + s[s.length / 2 - 1 + 1]) / 2, ?_⟩
    simp only [List.getElem?_eq_getElem h1, List.getElem?_eq_getElem h2]

lemma median_le_mem {s : List ℚ} (hs : List.Sorted (· ≤ ·) s) {m : ℚ}
    (h : median s = some m) : ∃ y ∈ s, y ≤ m := by
  unfold median at h
  by_cases hmod : s.length % 2 = 1
  · rw [if_pos hmod] at h
    obtain ⟨hlt, rfl⟩ := List.getElem?_eq_some.mp h
    exact ⟨_, List.getElem_mem hlt, le_refl _⟩
  · rw [if_neg hmod] at h
    rcases h1 : s[s.length / 2 - 1]? with _ | a <;> rcases h2 : s[s.length / 2 - 1 + 1]? with _ | b <;>
      simp [h1, h2] at h
    obtain ⟨ha, rfl⟩ := List.getElem?_eq_some.mp h1
    obtain ⟨hb, rfl⟩ := List.getElem?_eq_some.mp h2
    have hab : s[s.length / 2 - 1] ≤ s[s.length / 2 - 1 + 1] := by
      have := hs.rel_get_of_lt (a := ⟨s.length / 2 - 1, ha⟩) (b := ⟨s.length / 2 - 1 + 1, hb⟩)
        (by simp [Fin.lt_def])
      simpa using this
    refine ⟨s[s.length / 2 - 1], List.getElem_mem ha, ?_⟩
    rw [← h]
    linarith

lemma median_pos {s : List ℚ} (hpos : ∀ x ∈ s, 0 < x) {m : ℚ}
    (h : median s = some m) : 0 < m := by
  unfold median at h
  by_cases hmod : s.length % 2 = 1
  · rw [if_pos hmod] at h
    obtain ⟨hlt, rfl⟩ := List.getElem?_eq_some.mp h
    exact hpos _ (List.getElem_mem hlt)
  · rw [if_neg hmod] at h
    rcases h1 : s[s.length / 2 - 1]? with _ | a <;> rcases h2 : s[s.length / 2 - 1 + 1]? with _ | b <;>
      simp [h1, h2] at h
    obtain ⟨ha, rfl⟩ := List.getElem?_eq_some.mp h1
    obtain ⟨hb, rfl⟩ := List.getElem?_eq_some.mp h2
    have := hpos _ (List.getElem_mem ha)
    have := hpos _ (List.getElem_mem hb)
    rw [← h]
    linarith

lemma foldl_add_sq (m : ℚ) : ∀ (L : List ℚ) (a : ℚ),
    L.foldl (fun acc v => acc + (v - m) ^ 2) a = a + (L.map (fun v => (v - m) ^ 2)).sum
  | [], a => by simp
  | v :: L, a => by
    simp only [List.foldl_cons, List.map_cons, List.sum_cons, foldl_add_sq m L]
    ring

/-! ### Claim C4 -/

/-- Claim C4, counterexample: on the input `[0, 0, 3]` no value is trimmed
(the cutoff is `0 + 8·3 = 24`), the arithmetic mean of the remaining values is
`1`, yet `get_insert_params` returns `0` as its first component — the median,
not the arithmetic mean, of the remaining values.  So the claim that
`get_insert_params` "returns the arithmetic mean ... of the remaining values"
is false. -/
theorem C4_counterexample :
    get_insert_params [0, 0, 3] = some (0, 3) ∧
    listMean [0, 0, 3] = 1 ∧ (0 : ℚ) ≠ 1 := by
  refine ⟨?_, by norm_num [listMean], by norm_num⟩
  norm_num [get_insert_params, unscaled_upper_mad, mean_std, median,
    List.insertionSort, List.orderedInsert]

/-- Claim C4, amended: `get_insert_params` on a list whose upper MAD is
defined (some value lies strictly above the median) drops every value
`≥ med + 8·umad` and returns the MEDIAN of the remaining values together with
(the square root of) the average squared deviation from that median: the
returned centre `q.1` is the median of the trimmed list and the returned
spread satisfies `q.2 · |T| = Σ (v − q.1)²` over the trimmed list `T` (`q.2`
is the square of the standard deviation the source returns). -/
theorem C4_amended_theorem (L : List ℚ) (med umad : ℚ)
    (h : unscaled_upper_mad (L.insertionSort (· ≤ ·)) = some (med, umad)) :
    ∃ q : ℚ × ℚ,
      get_insert_params L = some q ∧
      median ((L.insertionSort (· ≤ ·)).filter (fun v => decide (v < med + 8 * umad))) = some q.1 ∧
      q.2 * (((L.insertionSort (· ≤ ·)).filter (fun v => decide (v < med + 8 * umad))).length : ℚ)
        = (((L.insertionSort (· ≤ ·)).filter (fun v => decide (v < med + 8 * umad))).map
            (fun v => (v - q.1) ^ 2)).sum := by
  have hsorted : List.Sorted (· ≤ ·) (L.insertionSort (· ≤ ·)) := List.sorted_insertionSort _ _
  obtain ⟨m, hm, hrest⟩ := Option.bind_eq_some.mp h
  obtain ⟨u, hu, huv⟩ := Option.map_eq_some'.mp hrest
  injection huv with h1 h2
  subst h1
  subst h2
  have humad : 0 < u := by
    refine median_pos ?_ hu
    intro x hx
    simp only [List.mem_map, List.mem_filter, decide_eq_true_eq] at hx
    obtain ⟨y, ⟨_, hy⟩, rfl⟩ := hx
    linarith
  obtain ⟨y, hy_mem, hy_le⟩ := median_le_mem hsorted hm
  set T := (L.insertionSort (· ≤ ·)).filter (fun v => decide (v < m + 8 * u)) with hT_def
  have hyT : y ∈ T := by
    rw [hT_def, List.mem_filter]
    refine ⟨hy_mem, by simp only [decide_eq_true_eq]; linarith⟩
  have hTne : T ≠ [] := fun hnil => by simp [hnil] at hyT
  have hTsorted : List.Sorted (· ≤ ·) T := hsorted.filter _
  have hTsort_eq : T.insertionSort (· ≤ ·) = T := hTsorted.insertionSort_eq
  obtain ⟨mT, hmT⟩ := median_isSome hTne
  have hTlen : (T.length : ℚ) ≠ 0 := by
    have : T.length ≠ 0 := fun h0 => hTne (List.length_eq_zero.mp h0)
    exact_mod_cast this
  refine ⟨(mT, (T.foldl (fun acc v => acc + (v - mT) ^ 2) 0) / (T.length : ℚ)), ?_, hmT, ?_⟩
  · show (unscaled_upper_mad (L.insertionSort (· ≤ ·))).bind
        (fun mu => mean_std ((L.insertionSort (· ≤ ·)).filter
          (fun v => decide (v < mu.1 + 8 * mu.2)))) = _
    rw [h, Option.some_bind]
    show mean_std T = _
    unfold mean_std
    rw [hTsort_eq, hmT]
    rfl
  · simp only
    rw [foldl_add_sq]
    field_simp

set_option maxHeartbeats 1000000 in
/-- Claim C4, witness for the amended theorem at the concrete input
`[0, 0, 3]` (median 0, upper MAD 3). -/
theorem C4_witness :
    unscaled_upper_mad (([0, 0, 3] : List ℚ).insertionSort (· ≤ ·)) = some (0, 3) ∧
    ∃ q : ℚ × ℚ,
      get_insert_params [0, 0, 3] = some q ∧
      median ((([0, 0, 3] : List ℚ).insertionSort (· ≤ ·)).filter
        (fun v => decide (v < 0 + 8 * 3))) = some q.1 ∧
      q.2 * (((([0, 0, 3] : List ℚ).insertionSort (· ≤ ·)).filter
        (fun v => decide (v < 0 + 8 * 3))).length : ℚ)
        = (((([0, 0, 3] : List ℚ).insertionSort (· ≤ ·)).filter
            (fun v => decide (v < 0 + 8 * 3))).map (fun v => (v - q.1) ^ 2)).sum := by
  have h : unscaled_upper_mad (([0, 0, 3] : List ℚ).insertionSort (· ≤ ·)) = some (0, 3) := by
    norm_num [unscaled_upper_mad, median, List.insertionSort, List.orderedInsert]
  exact ⟨h, C4_amended_theorem [0, 0, 3] 0 3 h⟩

/-! ### Claim C5: add_coverage -/
lemma getD_set_self (l : List ℚ) (i : ℕ) (a : ℚ) (h : i < l.length) :
    (l.set i a).getD i 0 = a := by
  rw [List.getD_eq_getElem?_getD, List.getElem?_set_self', List.getElem?_eq_getElem h]
  rfl

lemma getD_set_ne (l : List ℚ) {i j : ℕ} (a : ℚ) (h : i ≠ j) :
    (l.set i a).getD j 0 = l.getD j 0 := by
  rw [List.getD_eq_getElem?_getD, List.getElem?_set_ne h, ← List.getD_eq_getElem?_getD]

lemma fill_length : ∀ (k s : ℕ) (d : List ℚ),
    ((List.range' s k).foldl (fun a i => a.set i (a.getD i 0 + 1)) d).length = d.length
  | 0, s, d => by simp
  | k + 1, s, d => by
    rw [List.range'_succ, List.foldl_cons, fill_length k (s + 1)]
    simp

lemma fill_getD : ∀ (k s : ℕ) (d : List ℚ) (j : ℕ),
    ((List.range' s k).foldl (fun a i => a.set i (a.getD i 0 + 1)) d).getD j 0 =
      if s ≤ j ∧ j < s + k ∧ j < d.length then d.getD j 0 + 1 else d.getD j 0
  | 0, s, d, j => by
    simp only [List.range'_zero, List.foldl_nil]
    have : ¬ (s ≤ j ∧ j < s + 0 ∧ j < d.length) := by omega
    rw [if_neg this]
  | k + 1, s, d, j => by
    rw [List.range'_succ, List.foldl_cons, fill_getD k (s + 1)]
    by_cases hj : j = s
    · have hns : ¬ (s + 1 ≤ j ∧ j < s + 1 + k ∧ j < (d.set s (d.getD s 0 + 1)).length) := by omega
      rw [if_neg hns]
      by_cases hlt : s < d.length
      · rw [hj, getD_set_self d s _ hlt, if_pos (by omega)]
      · rw [List.set_eq_of_length_le (by omega), if_neg (by omega)]
    · rw [List.length_set, getD_set_ne d _ (fun hh => hj hh.symm)]
      by_cases hcond : s + 1 ≤ j ∧ j < s + 1 + k ∧ j < d.length
      · rw [if_pos hcond, if_pos (by omega)]
      · rw [if_neg hcond, if_neg (by omega)]

lemma add_coverage_unfold (start stop : ℤ) (d : List ℚ)
    (hc0 : ¬ truncToInt ((start : ℚ) / 100) < 0)
    (hc1 : ¬ truncToInt ((stop : ℚ) / 100) > (d.length : ℤ) - 1) :
    add_coverage start stop d =
      (let B0 := truncToInt ((start : ℚ) / 100)
       let B1 := truncToInt ((stop : ℚ) / 100)
       let d1 := d.set B0.toNat (d.getD B0.toNat 0 + ((B0 : ℚ) + 1 - (start : ℚ) / 100))
       let d2 :=
         if B0 ≠ B1 then
           let dd := d1.set B1.toNat (d1.getD B1.toNat 0 + ((stop : ℚ) / 100 - (B1 : ℚ)))
           if B1 - B0 > 1 then
             (List.range' (B0.toNat + 1) (B1 - B0 - 1).toNat).foldl
               (fun a i => a.set i (a.getD i 0 + 1)) dd
           else dd
         else d1
       (d2.getD B0.toNat 0, d2)) := by
  simp only [add_coverage, if_neg hc0, if_neg hc1]

/-- Claim C5, amended: for `0 ≤ start ≤ stop` with the end bin inside the
array, `add_coverage` adds `bin_start + 1 − start/100` to the start bin (which
equals the spec formula `(⌈start/100⌉·100 − start)/100` only when `start` is
not a multiple of 100, and `1` otherwise), adds `stop/100 − bin_end` to the
end bin only when the read spans more than one bin, adds `1.0` to each
interior bin, leaves all other bins unchanged, and returns the updated depth
at the start bin.  Per-bin stored coverage therefore equals the sum of these
per-read gains (not of the true fractional overlaps). -/
theorem C5_amended_theorem (start stop : ℤ) (d : List ℚ)
    (h0 : 0 ≤ start) (h1 : start ≤ stop)
    (hlen : truncToInt ((stop : ℚ) / 100) ≤ (d.length : ℤ) - 1) :
    (add_coverage start stop d).2.length = d.length ∧
    ((add_coverage start stop d).2.getD (truncToInt ((start : ℚ) / 100)).toNat 0
      = d.getD (truncToInt ((start : ℚ) / 100)).toNat 0
        + ((truncToInt ((start : ℚ) / 100) : ℚ) + 1 - (start : ℚ) / 100)) ∧
    (truncToInt ((start : ℚ) / 100) ≠ truncToInt ((stop : ℚ) / 100) →
      (add_coverage start stop d).2.getD (truncToInt ((stop : ℚ) / 100)).toNat 0
        = d.getD (truncToInt ((stop : ℚ) / 100)).toNat 0
          + ((stop : ℚ) / 100 - (truncToInt ((stop : ℚ) / 100) : ℚ))) ∧
    (∀ j : ℕ, truncToInt ((start : ℚ) / 100) < (j : ℤ) → (j : ℤ) < truncToInt ((stop : ℚ) / 100) →
      (add_coverage start stop d).2.getD j 0 = d.getD j 0 + 1) ∧
    (∀ j : ℕ, ((j : ℤ) < truncToInt ((start : ℚ) / 100) ∨ truncToInt ((stop : ℚ) / 100) < (j : ℤ)) →
      (add_coverage start stop d).2.getD j 0 = d.getD j 0) ∧
    (add_coverage start stop d).1
      = (add_coverage start stop d).2.getD (truncToInt ((start : ℚ) / 100)).toNat 0 := by
  have hfs : (0 : ℚ) ≤ (start : ℚ) / 100 := by
    apply div_nonneg _ (by norm_num)
    exact_mod_cast h0
  have hfe : (0 : ℚ) ≤ (stop : ℚ) / 100 := by
    apply div_nonneg _ (by norm_num)
    exact_mod_cast le_trans h0 h1
  have ht0 : truncToInt ((start : ℚ) / 100) = ⌊(start : ℚ) / 100⌋ := if_pos hfs
  have ht1 : truncToInt ((stop : ℚ) / 100) = ⌊(stop : ℚ) / 100⌋ := if_pos hfe
  set B0 := truncToInt ((start : ℚ) / 100) with hB0_def
  set B1 := truncToInt ((stop : ℚ) / 100) with hB1_def
  have hB0 : 0 ≤ B0 := by rw [ht0]; exact Int.floor_nonneg.mpr hfs
  have hB1 : 0 ≤ B1 := by rw [ht1]; exact Int.floor_nonneg.mpr hfe
  have hB01 : B0 ≤ B1 := by
    rw [ht0, ht1]
    apply Int.floor_le_floor
    exact (div_le_div_iff_of_pos_right (by norm_num)).mpr (by exact_mod_cast h1)
  have hc0 : ¬ B0 < 0 := by omega
  have hc1 : ¬ B1 > (d.length : ℤ) - 1 := by omega
  have hlen1 : B1.toNat < d.length := by omega
  have hlen0 : B0.toNat < d.length := by omega
  have htn0 : (B0.toNat : ℤ) = B0 := Int.toNat_of_nonneg hB0
  have htn1 : (B1.toNat : ℤ) = B1 := Int.toNat_of_nonneg hB1
  rw [add_coverage_unfold start stop d hc0 hc1]
  simp only [← hB0_def, ← hB1_def]
  by_cases heq : B0 ≠ B1
  · rw [if_pos heq]
    have hne_nat : B0.toNat ≠ B1.toNat := by omega
    by_cases hgap : B1 - B0 > 1
    · rw [if_pos hgap]
      have hk : B0.toNat + 1 + (B1 - B0 - 1).toNat = B1.toNat := by omega
      refine ⟨?_, ?_, ?_, ?_, ?_, trivial⟩
      · rw [fill_length]; simp
      · rw [fill_getD]
        rw [if_neg (by omega)]
        rw [getD_set_ne _ _ (fun hh => hne_nat hh.symm), getD_set_self _ _ _ hlen0]
      · intro _
        rw [fill_getD, if_neg (by omega),
          getD_set_self _ _ _ (by simpa using hlen1),
          getD_set_ne _ _ hne_nat]
      · intro j hj0 hj1
        rw [fill_getD, if_pos (by constructor; omega; constructor; omega; simpa using by omega)]
        rw [getD_set_ne _ _ (by omega), getD_set_ne _ _ (by omega)]
      · intro j hj
        rw [fill_getD, if_neg (by omega), getD_set_ne _ _ (by omega), getD_set_ne _ _ (by omega)]
    · rw [if_neg hgap]
      refine ⟨by simp, ?_, ?_, ?_, ?_, trivial⟩
      · rw [getD_set_ne _ _ (fun hh => hne_nat hh.symm), getD_set_self _ _ _ hlen0]
      · intro _
        rw [getD_set_self _ _ _ (by simpa using hlen1), getD_set_ne _ _ hne_nat]
      · intro j hj0 hj1
        omega
      · intro j hj
        rw [getD_set_ne _ _ (by omega), getD_set_ne _ _ (by omega)]
  · rw [if_neg heq]
    push_neg at heq
    refine ⟨by simp, ?_, ?_, ?_, ?_, trivial⟩
    · rw [getD_set_self _ _ _ hlen0]
    · intro hne; exact absurd heq hne
    · intro j hj0 hj1; omega
    · intro j hj
      rw [getD_set_ne _ _ (by omega)]

/-- Claim C5, counterexample: for `add_coverage 200 250` the spec formula
`(⌈start/100⌉·100 − start)/100` predicts a start-bin gain of `0` (since `200`
is a multiple of 100), but the code adds `bin_start + 1 − start/100 = 1` to
bin 2.  This also falsifies the claimed "coverage equals the sum of fractional
overlaps" invariant (the true overlap fraction of `[200, 250]` with bin 2 is
`0.5`, not `1`). -/
theorem C5_counterexample :
    (add_coverage 200 250 (List.replicate 5 0)).2.getD 2 0 = 1 ∧
    spec_start_bin_fraction 200 = 0 ∧ (1 : ℚ) ≠ 0 := by
  refine ⟨?_, ?_, by norm_num⟩
  · norm_num [add_coverage, truncToInt]
    decide
  · norm_num [spec_start_bin_fraction]

/-- Claim C5, witness for the amended theorem at the concrete call
`add_coverage 150 360` on a five-bin array. -/
theorem C5_witness :
    (0 : ℤ) ≤ 150 ∧ (150 : ℤ) ≤ 360 ∧
    truncToInt ((360 : ℚ) / 100) ≤ ((List.replicate 5 (0 : ℚ)).length : ℤ) - 1 ∧
    (add_coverage 150 360 (List.replicate 5 0)).1
      = (add_coverage 150 360 (List.replicate 5 0)).2.getD
          (truncToInt ((150 : ℚ) / 100)).toNat 0 :=
  ⟨by norm_num, by norm_num, by norm_num [truncToInt],
   (C5_amended_theorem 150 360 (List.replicate 5 0) (by norm_num) (by norm_num)
     (by norm_num [truncToInt])).2.2.2.2.2⟩

/-! ### Claim C8: the 0x604 / missing-CIGAR / missing-seq filter -/

/-- Claim C8: every record whose flag intersects 0x604 (1540), or whose CIGAR
or sequence is missing, makes `_add_to_bin_buffer` return with the scanner
state completely unchanged — in particular the record is never staged, so it
can never reach `add_to_graph`. -/
theorem C8_theorem (ref_length : ℤ → ℤ) (in_roi_f : ℤ → ℤ → Bool) (s : ScannerState)
    (a : AlnRecord) (tell : ℤ)
    (h : a.flag &&& 1540 ≠ 0 ∨ a.cigartuples = none ∨ a.seq = none) :
    add_to_bin_buffer ref_length in_roi_f s a tell = s := by
  unfold add_to_bin_buffer
  rw [if_pos h]

/-- A duplicate-flagged (1024) record used as the concrete C8 witness input. -/
def c8_record : AlnRecord :=
  ⟨1024, some [(0, 100)], some "A", 0, 500, 600⟩

/-- A small concrete scanner state used by the C8 witness. -/
def c8_state : ScannerState :=
  ⟨4, [], [], 0, 0, [], 0⟩

/-- Claim C8, witness: the duplicate-flagged record (flag 1024 ⊆ 0x604) leaves
the concrete scanner state untouched. -/
theorem C8_witness :
    ((1024 : ℕ) &&& 1540 ≠ 0 ∨ c8_record.cigartuples = none ∨ c8_record.seq = none) ∧
    add_to_bin_buffer (fun _ => 0) (fun _ _ => false) c8_state c8_record 0 = c8_state :=
  ⟨Or.inl (by decide),
   C8_theorem (fun _ => 0) (fun _ _ => false) c8_state c8_record 0 (Or.inl (by decide))⟩

/-! ### Claim C3: the over-coverage rule's bookkeeping -/

/-- The read already sitting in the current bin for the C3 failing input. -/
def c3_read0 : AlnRecord :=
  ⟨0, some [(0, 100)], some "A", 0, 500, 600⟩

/-- The scanner state for the C3 failing input: one read in the current bin
(chromosome 0, bin 5), `max_cov = 1`, empty staging queue. -/
def c3_state : ScannerState :=
  ⟨1, [], [(c3_read0, 0)], 0, 5, [(0, List.replicate 7 0)], 0⟩

/-- The incoming read for the C3 failing input: same chromosome and bin; its
coverage update brings the bin depth to `1 ≥ max_cov` and it is not in a
region of interest, so the over-coverage rule fires. -/
def c3_incoming : AlnRecord :=
  ⟨0, some [(0, 100)], some "A", 0, 500, 600⟩

/-- Claim C3: evaluating `_add_to_bin_buffer` at the failing input.  The
over-coverage rule fires with one read in the current bin; the bin and the
incoming read are indeed discarded, but `reads_dropped` increases only by `1`,
not by `1 + 1` as the claim states: the source executes
`self.reads_dropped += len(self.current_bin)` after `self.current_bin = []`,
so the discarded bin's reads are never counted. -/
theorem C3_theorem :
    c3_state.current_bin.length = 1 ∧
    (add_to_bin_buffer (fun _ => 600) (fun _ _ => false) c3_state c3_incoming 1).reads_dropped
      = c3_state.reads_dropped + 1 ∧
    (add_to_bin_buffer (fun _ => 600) (fun _ _ => false) c3_state c3_incoming 1).current_bin = [] ∧
    (add_to_bin_buffer (fun _ => 600) (fun _ _ => false) c3_state c3_incoming 1).staged_reads = [] ∧
    c3_state.reads_dropped + 1 ≠ c3_state.reads_dropped + 1 + c3_state.current_bin.length := by
  have hcov : add_coverage 500 600 (List.replicate 7 0) = (1, [0, 0, 0, 0, 0, 1, 0]) := by
    norm_num [add_coverage, truncToInt]
    decide
  have heval : add_to_bin_buffer (fun _ => 600) (fun _ _ => false) c3_state c3_incoming 1
      = { c3_state with current_bin := [], reads_dropped := 1,
                        depth_d := [(0, [0, 0, 0, 0, 0, 1, 0])] } := by
    rw [add_to_bin_buffer]
    rw [if_neg (by decide)]
    simp only [c3_state, c3_incoming, c3_read0, depthLookup, depthUpdate, List.find?,
      truncToInt]
    norm_num [hcov]
    decide
  rw [heval]
  refine ⟨by decide, by decide, by decide, by decide, by decide⟩

/-! ### graph.pyx: ReadEnum, LocalVal and the PairedEndScoper -/

/-- Embedding of the `ReadEnum_t` enum (graph.pyx lines 65-70). -/
inductive ReadEnum where
  | DISCORDANT
  | SPLIT
  | DELETION
  | INSERTION
  | BREAKEND
deriving DecidableEq

/-- Embedding of the `LocalVal` struct (graph.pyx lines 334-349). -/
structure LocalVal where
  chrom2 : ℤ
  pos2 : ℤ
  node_name : ℤ
  length_from_cigar : ℤ
  read_enum : ReadEnum
deriving DecidableEq

/-- Insertion into a C++ `multimap` ordered by the integer key: the new pair
goes after all entries with a key ≤ its own (C++ inserts at the upper bound of
the equal range). -/
def mmInsert : List (ℤ × LocalVal) → (ℤ × LocalVal) → List (ℤ × LocalVal)
  | [], p => [p]
  | q :: rest, p => if p.1 < q.1 then p :: q :: rest else q :: mmInsert rest p

/-- The state of a `PairedEndScoper` (graph.pyx lines 352-374).  The fields
`norm`, `thresh`, `paired_end` and the call argument `trust_ins_len` are only
ever passed on to the external `span_position_distance`, which the embedding
abstracts as the function parameter `spd`; they are therefore absorbed into
that parameter. -/
structure PEScoper where
  clst_dist : ℤ
  max_dist : ℤ
  local_chrom : ℤ
  loci : List (ℤ × LocalVal)
  chrom_scope : List (List (ℤ × LocalVal))
deriving DecidableEq

/-- Index of the forward scope used for partner chromosome `chrom2`: the extra
back slot for the insertion sentinel `10000000`, otherwise `chrom_scope[chrom2]`
(graph.pyx lines 392-395 and 538-541). -/
def forwardScopeIdx (s : PEScoper) (chrom2 : ℤ) : ℕ :=
  if chrom2 = 10000000 then s.chrom_scope.length - 1 else chrom2.toNat

/-- Embedding of `PairedEndScoper.add_item` (graph.pyx lines 531-556): insert
`current_pos → (chrom2, pos2, …)` into the local scope, for a DELETION also
into the forward scope, and always `pos2 → (current_chrom, current_pos, …)`
into the forward scope.  Note the routine never inspects `local_chrom` and
never clears anything. -/
def add_item (s : PEScoper) (node_name current_chrom current_pos chrom2 pos2 : ℤ)
    (read_enum : ReadEnum) (length_from_cigar : ℤ) : PEScoper :=
  let idx := forwardScopeIdx s chrom2
  let lv1 : LocalVal := ⟨chrom2, pos2, node_name, length_from_cigar, read_enum⟩
  let loci1 := mmInsert s.loci (current_pos, lv1)
  let fs0 := s.chrom_scope.getD idx []
  let fs1 := if read_enum = ReadEnum.DELETION then mmInsert fs0 (current_pos, lv1) else fs0
  let lv2 : LocalVal := ⟨current_chrom, current_pos, node_name, length_from_cigar, read_enum⟩
  let fs2 := mmInsert fs1 (pos2, lv2)
  { s with loci := loci1, chrom_scope := s.chrom_scope.set idx fs2 }

/-- The DELETION/INSERTION type gate of `find_other_nodes` (graph.pyx lines
427 and 485): a DELETION query never pairs with an INSERTION neighbour and
vice versa. -/
def typeGate (re ve : ReadEnum) : Bool :=
  decide ((re = ReadEnum.DELETION ∧ ve = ReadEnum.INSERTION) ∨
          (re = ReadEnum.INSERTION ∧ ve = ReadEnum.DELETION))

/-- The exact-bucket span test (graph.pyx lines 449-453):
`|len − v.len| / max(len, v.len) < 0.8`, floats modelled as exact rationals. -/
def span_distance_lt (lfc vlfc : ℤ) : Bool :=
  decide ((((lfc - vlfc).natAbs : ℚ)) / ((max lfc vlfc : ℤ) : ℚ) < 4 / 5)

/-- Modelled from the spec: `is_reciprocal_overlapping` lives in
`map_set_utils` (not under src/).  Per the spec, two intervals reciprocally
overlap when each covers at least 50% of the other; the interval ends are
normalised first since a `pos1/pos2` pair may arrive in either order. -/
def is_reciprocal_overlapping (x1 x2 y1 y2 : ℤ) : Bool :=
  let s1 := min x1 x2
  let e1 := max x1 x2
  let s2 := min y1 y2
  let e2 := max y1 y2
  let overlap := min e1 e2 - max s1 s2
  decide (0 ≤ overlap ∧ 2 * overlap ≥ e1 - s1 ∧ 2 * overlap ≥ e2 - s2)

/-- One C-side walk step outcome: the updated exact bucket, distance bucket
and `sep` variable. -/
abbrev WalkAcc := List ℤ × List ℤ × ℤ

/-- The body of one FORWARD search iteration of `find_other_nodes` (graph.pyx
lines 425-464) on the scope entry `(k, v)` (`vitem.first`, `vitem.second`):
the self gate, the reciprocal-overlap gate, the strict distance tests, the
exact bucket with its span test, and the `span_position_distance` fallbacks.
`sep` is only reassigned inside the reciprocal-overlap branch, exactly as in
the source. -/
def fwdStep (recip : ℤ → ℤ → ℤ → ℤ → Bool)
    (spd : ℤ → ℤ → ℤ → ℤ → ReadEnum → ℤ → ℤ → Bool)
    (node_name current_chrom current_pos chrom2 pos2 : ℤ) (read_enum : ReadEnum)
    (length_from_cigar max_dist : ℤ)
    (k : ℤ) (v : LocalVal) (sep : ℤ) (fe f2 : List ℤ) : WalkAcc :=
  if v.node_name ≠ node_name then
    if current_chrom ≠ chrom2 ∨ recip current_pos pos2 k v.pos2 then
      let sep1 := |k - pos2|
      let sep2 := |v.pos2 - current_pos|
      if sep1 < max_dist ∧ sep2 < max_dist then
        if sep1 < 35 then
          if length_from_cigar > 0 ∧ v.length_from_cigar > 0 then
            if span_distance_lt length_from_cigar v.length_from_cigar then
              (fe ++ [v.node_name], f2, sep1)
            else (fe, f2, sep1)
          else (fe ++ [v.node_name], f2, sep1)
        else if spd current_pos pos2 k v.pos2 read_enum length_from_cigar
            v.length_from_cigar then
          (fe, f2 ++ [v.node_name], sep1)
        else (fe, f2, sep1)
      else if spd current_pos pos2 k v.pos2 read_enum length_from_cigar
          v.length_from_cigar then
        (fe, f2 ++ [v.node_name], sep1)
      else (fe, f2, sep1)
    else if spd current_pos pos2 k v.pos2 read_enum length_from_cigar
        v.length_from_cigar then
      (fe, f2 ++ [v.node_name], sep)
    else (fe, f2, sep)
  else (fe, f2, sep)

/-- The body of one BACKWARD search iteration of `find_other_nodes` (graph.pyx
lines 484-519).  Differences from the forward body, straight from the source:
the in-range test additionally requires `v.chrom2 == chrom2` (line 498), and
after the `sep < 35` branch there is an extra unconditional
`found_exact.push_back(node_name2)` (line 510), so any neighbour reaching that
branch enters the exact bucket regardless of the span test (and twice when the
span test passes). -/
def bwdStep (recip : ℤ → ℤ → ℤ → ℤ → Bool)
    (spd : ℤ → ℤ → ℤ → ℤ → ReadEnum → ℤ → ℤ → Bool)
    (node_name current_chrom current_pos chrom2 pos2 : ℤ) (read_enum : ReadEnum)
    (length_from_cigar max_dist : ℤ)
    (k : ℤ) (v : LocalVal) (sep : ℤ) (fe f2 : List ℤ) : WalkAcc :=
  if v.node_name ≠ node_name then
    if current_chrom ≠ chrom2 ∨ recip current_pos pos2 k v.pos2 then
      let sep1 := |k - pos2|
      let sep2 := |v.pos2 - current_pos|
      if sep1 < max_dist ∧ v.chrom2 = chrom2 ∧ sep2 < max_dist then
        if sep1 < 35 then
          let fe1 :=
            if length_from_cigar > 0 ∧ v.length_from_cigar > 0 then
              if span_distance_lt length_from_cigar v.length_from_cigar then
                fe ++ [v.node_name]
              else fe
            else fe ++ [v.node_name]
          (fe1 ++ [v.node_name], f2, sep1)
        else if spd current_pos pos2 k v.pos2 read_enum length_from_cigar
            v.length_from_cigar then
          (fe, f2 ++ [v.node_name], sep1)
        else (fe, f2, sep1)
      else if spd current_pos pos2 k v.pos2 read_enum length_from_cigar
          v.length_from_cigar then
        (fe, f2 ++ [v.node_name], sep1)
      else (fe, f2, sep1)
    else if spd current_pos pos2 k v.pos2 read_enum length_from_cigar
        v.length_from_cigar then
      (fe, f2 ++ [v.node_name], sep)
    else (fe, f2, sep)
  else (fe, f2, sep)

/-- Embedding of the FORWARD search loop of `find_other_nodes` (graph.pyx
lines 420-472) over the suffix of the forward scope starting at
`lower_bound(pos2)`.  The loop's quirks are preserved: the type-gate `continue`
does not advance the iterator (so such an item is reprocessed until the step
budget of 6 is exhausted), and the `sep ≥ max_dist` break reads the `sep`
variable as last assigned. -/
def fwdWalk (recip : ℤ → ℤ → ℤ → ℤ → Bool)
    (spd : ℤ → ℤ → ℤ → ℤ → ReadEnum → ℤ → ℤ → Bool)
    (node_name current_chrom current_pos chrom2 pos2 : ℤ) (read_enum : ReadEnum)
    (length_from_cigar max_dist : ℤ)
    (l : List (ℤ × LocalVal)) (steps : ℕ) (sep : ℤ) (fe f2 : List ℤ) : WalkAcc :=
  if _h6 : 6 ≤ steps then (fe, f2, sep)
  else
    match l with
    | [] => (fe, f2, sep)
    | (k, v) :: rest =>
      if typeGate read_enum v.read_enum then
        fwdWalk recip spd node_name current_chrom current_pos chrom2 pos2 read_enum
          length_from_cigar max_dist ((k, v) :: rest) (steps + 1) sep fe f2
      else
        let acc := fwdStep recip spd node_name current_chrom current_pos chrom2 pos2
          read_enum length_from_cigar max_dist k v sep fe f2
        if acc.2.2 ≥ max_dist then acc
        else if rest.isEmpty then acc
        else
          fwdWalk recip spd node_name current_chrom current_pos chrom2 pos2 read_enum
            length_from_cigar max_dist rest (steps + 1) acc.2.2 acc.1 acc.2.1
termination_by 6 - steps
decreasing_by
  all_goals omega

/-- Embedding of the BACKWARD search loop of `find_other_nodes` (graph.pyx
lines 474-524), walking the reversed prefix of the forward scope (the entries
before `lower_bound(pos2)`, nearest first).  The loop breaks after processing
the first element of the scope (`local_it == begin`) or when `sep ≥ max_dist`;
the type-gate `continue` again does not advance the iterator. -/
def bwdWalk (recip : ℤ → ℤ → ℤ → ℤ → Bool)
    (spd : ℤ → ℤ → ℤ → ℤ → ReadEnum → ℤ → ℤ → Bool)
    (node_name current_chrom current_pos chrom2 pos2 : ℤ) (read_enum : ReadEnum)
    (length_from_cigar max_dist : ℤ)
    (l : List (ℤ × LocalVal)) (steps : ℕ) (sep : ℤ) (fe f2 : List ℤ) : WalkAcc :=
  if _h6 : 6 ≤ steps then (fe, f2, sep)
  else
    match l with
    | [] => (fe, f2, sep)
    | (k, v) :: rest =>
      if typeGate read_enum v.read_enum then
        bwdWalk recip spd node_name current_chrom current_pos chrom2 pos2 read_enum
          length_from_cigar max_dist ((k, v) :: rest) (steps + 1) sep fe f2
      else
        let acc := bwdStep recip spd node_name current_chrom current_pos chrom2 pos2
          read_enum length_from_cigar max_dist k v sep fe f2
        if rest.isEmpty ∨ acc.2.2 ≥ max_dist then acc
        else
          bwdWalk recip spd node_name current_chrom current_pos chrom2 pos2 read_enum
            length_from_cigar max_dist rest (steps + 1) acc.2.2 acc.1 acc.2.1
termination_by 6 - steps
decreasing_by
  all_goals omega

/-- Embedding of `PairedEndScoper.find_other_nodes` (graph.pyx lines 382-529).
On a chromosome change the scopes are emptied and `local_chrom` updated first;
with an empty local scope the search is skipped entirely.  Otherwise local
entries with key `< current_pos − clst_dist` are erased, the forward scope is
walked forward from `lower_bound(pos2)` (up to 6 steps), then — only when the
exact bucket is still empty — backward from the entry before `lower_bound(pos2)`
(up to 6 steps, with `sep` carried over from the forward walk).  Returns the
exact bucket if non-empty, else the distance bucket, plus the updated state. -/
def find_other_nodes (recip : ℤ → ℤ → ℤ → ℤ → Bool)
    (spd : ℤ → ℤ → ℤ → ℤ → ReadEnum → ℤ → ℤ → Bool)
    (s : PEScoper) (node_name current_chrom current_pos chrom2 pos2 : ℤ)
    (read_enum : ReadEnum) (length_from_cigar : ℤ) : List ℤ × PEScoper :=
  let s1 :=
    if current_chrom ≠ s.local_chrom then
      { s with local_chrom := current_chrom, loci := [],
               chrom_scope := s.chrom_scope.map (fun _ => ([] : List (ℤ × LocalVal))) }
    else s
  if s1.loci.isEmpty then ([], s1)
  else
    let loci1 := s1.loci.dropWhile (fun p => decide (p.1 < current_pos - s1.clst_dist))
    let fscope := s1.chrom_scope.getD (forwardScopeIdx s1 chrom2) []
    let suffix := fscope.dropWhile (fun p => decide (p.1 < pos2))
    let prefixRev := (fscope.takeWhile (fun p => decide (p.1 < pos2))).reverse
    let fwd : WalkAcc :=
      if ¬ suffix.isEmpty then
        fwdWalk recip spd node_name current_chrom current_pos chrom2 pos2 read_enum
          length_from_cigar s1.max_dist suffix 0 0 [] []
      else ([], [], 0)
    let bwd : WalkAcc :=
      if fwd.1.isEmpty ∧ ¬ prefixRev.isEmpty then
        bwdWalk recip spd node_name current_chrom current_pos chrom2 pos2 read_enum
          length_from_cigar s1.max_dist prefixRev 0 fwd.2.2 fwd.1 fwd.2.1
      else fwd
    (if ¬ bwd.1.isEmpty then bwd.1 else bwd.2.1, { s1 with loci := loci1 })

/-! ### Claim C2: clearing on chromosome change -/

lemma mmInsert_mem (p : ℤ × LocalVal) : ∀ (l : List (ℤ × LocalVal)) (x : ℤ × LocalVal),
    x ∈ l → x ∈ mmInsert l p
  | [], x, hx => absurd hx (List.not_mem_nil x)
  | q :: rest, x, hx => by
    rw [mmInsert]
    split
    · exact List.mem_cons_of_mem _ hx
    · rcases List.mem_cons.mp hx with rfl | hx'
      · exact List.mem_cons_self _ _
      · exact List.mem_cons_of_mem _ (mmInsert_mem p rest x hx')

/-- A concrete local value for the C2 counterexample: an entry made on
chromosome 0. -/
def c2_lv : LocalVal := ⟨0, 200, 0, 0, ReadEnum.DISCORDANT⟩

/-- A concrete scoper state for claim C2: `local_chrom = 0` with one live
entry in the local scope. -/
def c2_state : PEScoper := ⟨500, 500, 0, [(100, c2_lv)], [[], []]⟩

/-- Claim C2, counterexample: calling `add_item` with `c1 = 1` while
`local_chrom = 0` does NOT clear the scopes or update `local_chrom`: the old
chromosome-0 entry is still in `loci` after the insertion and `local_chrom` is
still `0 ≠ 1`.  `add_item` performs no clearing at all. -/
theorem C2_counterexample :
    (100, c2_lv) ∈ (add_item c2_state 1 1 50 1 60 ReadEnum.DISCORDANT 0).loci ∧
    (add_item c2_state 1 1 50 1 60 ReadEnum.DISCORDANT 0).local_chrom = 0 ∧
    (0 : ℤ) ≠ 1 := by
  refine ⟨by decide, by decide, by decide⟩

/-- Claim C2, amended: `add_item` itself never clears scopes nor touches
`local_chrom` (existing `loci` entries survive any insertion, including one
with `c1 ≠ local_chrom`); the clearing on chromosome change is performed by
`find_other_nodes`, which — when called with `current_chrom ≠ local_chrom` —
empties `loci` and every `chrom_scope[c]`, sets `local_chrom := current_chrom`
before searching, and consequently returns no partners.  Since in
`add_to_graph` every `add_item` call is preceded by a `find_other_nodes` call
with the same chromosome, the scopes are empty of old-chromosome entries
before the new entries are inserted. -/
theorem C2_amended_theorem (recip : ℤ → ℤ → ℤ → ℤ → Bool)
    (spd : ℤ → ℤ → ℤ → ℤ → ReadEnum → ℤ → ℤ → Bool)
    (s : PEScoper) (node_name current_chrom current_pos chrom2 pos2 : ℤ)
    (read_enum : ReadEnum) (length_from_cigar : ℤ)
    (h : current_chrom ≠ s.local_chrom) :
    (∀ e ∈ s.loci,
      e ∈ (add_item s node_name current_chrom current_pos chrom2 pos2
            read_enum length_from_cigar).loci) ∧
    (add_item s node_name current_chrom current_pos chrom2 pos2
        read_enum length_from_cigar).local_chrom = s.local_chrom ∧
    (find_other_nodes recip spd s node_name current_chrom current_pos chrom2 pos2
        read_enum length_from_cigar).1 = [] ∧
    (find_other_nodes recip spd s node_name current_chrom current_pos chrom2 pos2
        read_enum length_from_cigar).2.local_chrom = current_chrom ∧
    (find_other_nodes recip spd s node_name current_chrom current_pos chrom2 pos2
        read_enum length_from_cigar).2.loci = [] ∧
    (∀ sc ∈ (find_other_nodes recip spd s node_name current_chrom current_pos chrom2
        pos2 read_enum length_from_cigar).2.chrom_scope, sc = ([] : List (ℤ × LocalVal))) := by
  refine ⟨fun e he => mmInsert_mem _ _ _ he, rfl, ?_, ?_, ?_, ?_⟩
  · unfold find_other_nodes
    rw [if_pos h]
    rfl
  · unfold find_other_nodes
    rw [if_pos h]
    rfl
  · unfold find_other_nodes
    rw [if_pos h]
    rfl
  · intro sc hsc
    unfold find_other_nodes at hsc
    rw [if_pos h] at hsc
    replace hsc : sc ∈ s.chrom_scope.map (fun _ => ([] : List (ℤ × LocalVal))) := hsc
    simp only [List.mem_map] at hsc
    obtain ⟨_, _, rfl⟩ := hsc
    rfl

/-- Claim C2, witness for the amended theorem: concrete call on `c2_state`
with `current_chrom = 1 ≠ 0 = local_chrom`. -/
theorem C2_witness :
    (1 : ℤ) ≠ c2_state.local_chrom ∧
    (find_other_nodes (fun _ _ _ _ => false) (fun _ _ _ _ _ _ _ => false) c2_state
        1 1 50 1 60 ReadEnum.DISCORDANT 0).1 = [] ∧
    (find_other_nodes (fun _ _ _ _ => false) (fun _ _ _ _ _ _ _ => false) c2_state
        1 1 50 1 60 ReadEnum.DISCORDANT 0).2.loci = [] := by
  have h : (1 : ℤ) ≠ c2_state.local_chrom := by decide
  have := C2_amended_theorem (fun _ _ _ _ => false) (fun _ _ _ _ _ _ _ => false) c2_state
    1 1 50 1 60 ReadEnum.DISCORDANT 0 h
  exact ⟨h, this.2.2.1, this.2.2.2.2.1⟩

/-! ### Claim C9: find_other_nodes never returns the querying node -/

lemma mem_app_ne {l : List ℤ} {n a : ℤ} (hl : ∀ x ∈ l, x ≠ n) (ha : a ≠ n) :
    ∀ x ∈ l ++ [a], x ≠ n := by
  intro x hx
  rcases List.mem_append.mp hx with h | h
  · exact hl x h
  · rw [List.mem_singleton.mp h]
    exact ha

lemma fwdStep_ne (recip : ℤ → ℤ → ℤ → ℤ → Bool)
    (spd : ℤ → ℤ → ℤ → ℤ → ReadEnum → ℤ → ℤ → Bool)
    (node_name current_chrom current_pos chrom2 pos2 : ℤ) (read_enum : ReadEnum)
    (length_from_cigar max_dist : ℤ) (k : ℤ) (v : LocalVal) (sep : ℤ) (fe f2 : List ℤ)
    (hfe : ∀ x ∈ fe, x ≠ node_name) (hf2 : ∀ x ∈ f2, x ≠ node_name) :
    (∀ x ∈ (fwdStep recip spd node_name current_chrom current_pos chrom2 pos2 read_enum
        length_from_cigar max_dist k v sep fe f2).1, x ≠ node_name) ∧
    (∀ x ∈ (fwdStep recip spd node_name current_chrom current_pos chrom2 pos2 read_enum
        length_from_cigar max_dist k v sep fe f2).2.1, x ≠ node_name) := by
  simp only [fwdStep]
  split_ifs with h1 h2 h3 h4 h5 h6 h7 h8 <;>
    first
      | exact ⟨hfe, hf2⟩
      | exact ⟨mem_app_ne hfe h1, hf2⟩
      | exact ⟨hfe, mem_app_ne hf2 h1⟩

lemma bwdStep_ne (recip : ℤ → ℤ → ℤ → ℤ → Bool)
    (spd : ℤ → ℤ → ℤ → ℤ → ReadEnum → ℤ → ℤ → Bool)
    (node_name current_chrom current_pos chrom2 pos2 : ℤ) (read_enum : ReadEnum)
    (length_from_cigar max_dist : ℤ) (k : ℤ) (v : LocalVal) (sep : ℤ) (fe f2 : List ℤ)
    (hfe : ∀ x ∈ fe, x ≠ node_name) (hf2 : ∀ x ∈ f2, x ≠ node_name) :
    (∀ x ∈ (bwdStep recip spd node_name current_chrom current_pos chrom2 pos2 read_enum
        length_from_cigar max_dist k v sep fe f2).1, x ≠ node_name) ∧
    (∀ x ∈ (bwdStep recip spd node_name current_chrom current_pos chrom2 pos2 read_enum
        length_from_cigar max_dist k v sep fe f2).2.1, x ≠ node_name) := by
  simp only [bwdStep]
  split_ifs with h1 h2 h3 h4 h5 h6 h7 h8 <;>
    first
      | exact ⟨hfe, hf2⟩
      | exact ⟨mem_app_ne hfe h1, hf2⟩
      | exact ⟨hfe, mem_app_ne hf2 h1⟩
      | exact ⟨mem_app_ne (mem_app_ne hfe h1) h1, hf2⟩

lemma fwdWalk_ne_aux (recip : ℤ → ℤ → ℤ → ℤ → Bool)
    (spd : ℤ → ℤ → ℤ → ℤ → ReadEnum → ℤ → ℤ → Bool)
    (node_name current_chrom current_pos chrom2 pos2 : ℤ) (read_enum : ReadEnum)
    (length_from_cigar max_dist : ℤ) :
    ∀ (n : ℕ) (l : List (ℤ × LocalVal)) (steps : ℕ) (sep : ℤ) (fe f2 : List ℤ),
      6 - steps ≤ n →
      (∀ x ∈ fe, x ≠ node_name) → (∀ x ∈ f2, x ≠ node_name) →
      (∀ x ∈ (fwdWalk recip spd node_name current_chrom current_pos chrom2 pos2 read_enum
          length_from_cigar max_dist l steps sep fe f2).1, x ≠ node_name) ∧
      (∀ x ∈ (fwdWalk recip spd node_name current_chrom current_pos chrom2 pos2 read_enum
          length_from_cigar max_dist l steps sep fe f2).2.1, x ≠ node_name) := by
  intro n
  induction n with
  | zero =>
    intro l steps sep fe f2 hn hfe hf2
    rw [fwdWalk.eq_def, dif_pos (by omega : 6 ≤ steps)]
    exact ⟨hfe, hf2⟩
  | succ n ih =>
    intro l steps sep fe f2 hn hfe hf2
    rw [fwdWalk.eq_def]
    by_cases h6 : 6 ≤ steps
    · rw [dif_pos h6]
      exact ⟨hfe, hf2⟩
    · rw [dif_neg h6]
      rcases l with _ | ⟨⟨k, v⟩, rest⟩
      · exact ⟨hfe, hf2⟩
      · simp only []
        by_cases hg : typeGate read_enum v.read_enum
        · rw [if_pos hg]
          exact ih _ _ _ _ _ (by omega) hfe hf2
        · rw [if_neg hg]
          have hstep := fwdStep_ne recip spd node_name current_chrom current_pos chrom2 pos2
            read_enum length_from_cigar max_dist k v sep fe f2 hfe hf2
          by_cases hsep : (fwdStep recip spd node_name current_chrom current_pos chrom2 pos2
              read_enum length_from_cigar max_dist k v sep fe f2).2.2 ≥ max_dist
          · rw [if_pos hsep]
            exact hstep
          · rw [if_neg hsep]
            by_cases hrest : rest.isEmpty
            · rw [if_pos hrest]
              exact hstep
            · rw [if_neg hrest]
              exact ih _ _ _ _ _ (by omega) hstep.1 hstep.2

lemma bwdWalk_ne_aux (recip : ℤ → ℤ → ℤ → ℤ → Bool)
    (spd : ℤ → ℤ → ℤ → ℤ → ReadEnum → ℤ → ℤ → Bool)
    (node_name current_chrom current_pos chrom2 pos2 : ℤ) (read_enum : ReadEnum)
    (length_from_cigar max_dist : ℤ) :
    ∀ (n : ℕ) (l : List (ℤ × LocalVal)) (steps : ℕ) (sep : ℤ) (fe f2 : List ℤ),
      6 - steps ≤ n →
      (∀ x ∈ fe, x ≠ node_name) → (∀ x ∈ f2, x ≠ node_name) →
      (∀ x ∈ (bwdWalk recip spd node_name current_chrom current_pos chrom2 pos2 read_enum
          length_from_cigar max_dist l steps sep fe f2).1, x ≠ node_name) ∧
      (∀ x ∈ (bwdWalk recip spd node_name current_chrom current_pos chrom2 pos2 read_enum
          length_from_cigar max_dist l steps sep fe f2).2.1, x ≠ node_name) := by
  intro n
  induction n with
  | zero =>
    intro l steps sep fe f2 hn hfe hf2
    rw [bwdWalk.eq_def, dif_pos (by omega : 6 ≤ steps)]
    exact ⟨hfe, hf2⟩
  | succ n ih =>
    intro l steps sep fe f2 hn hfe hf2
    rw [bwdWalk.eq_def]
    by_cases h6 : 6 ≤ steps
    · rw [dif_pos h6]
      exact ⟨hfe, hf2⟩
    · rw [dif_neg h6]
      rcases l with _ | ⟨⟨k, v⟩, rest⟩
      · exact ⟨hfe, hf2⟩
      · simp only []
        by_cases hg : typeGate read_enum v.read_enum
        · rw [if_pos hg]
          exact ih _ _ _ _ _ (by omega) hfe hf2
        · rw [if_neg hg]
          have hstep := bwdStep_ne recip spd node_name current_chrom current_pos chrom2 pos2
            read_enum length_from_cigar max_dist k v sep fe f2 hfe hf2
          by_cases hbreak : rest.isEmpty ∨ (bwdStep recip spd node_name current_chrom
              current_pos chrom2 pos2 read_enum length_from_cigar max_dist k v sep fe f2).2.2
              ≥ max_dist
          · rw [if_pos hbreak]
            exact hstep
          · rw [if_neg hbreak]
            exact ih _ _ _ _ _ (by omega) hstep.1 hstep.2

/-- Claim C9: the vector returned by `find_other_nodes` never contains the
querying node itself — every push into either bucket happens under the
`node_name2 != node_name` guard, in both the forward and the backward walk —
so the weight-2 edges added in `add_to_graph` from this result are never
self-loops. -/
theorem C9_theorem (recip : ℤ → ℤ → ℤ → ℤ → Bool)
    (spd : ℤ → ℤ → ℤ → ℤ → ReadEnum → ℤ → ℤ → Bool)
    (s : PEScoper) (node_name current_chrom current_pos chrom2 pos2 : ℤ)
    (read_enum : ReadEnum) (length_from_cigar : ℤ) :
    ∀ x ∈ (find_other_nodes recip spd s node_name current_chrom current_pos chrom2 pos2
        read_enum length_from_cigar).1, x ≠ node_name := by
  intro x hx
  unfold find_other_nodes at hx
  lift_lets at hx
  extract_lets s1 loci1 fscope suffix prefixRev fwd bwd at hx
  have hfwd : (∀ y ∈ fwd.1, y ≠ node_name) ∧ (∀ y ∈ fwd.2.1, y ≠ node_name) := by
    unfold fwd
    split_ifs <;>
      first
        | exact fwdWalk_ne_aux recip spd node_name current_chrom current_pos chrom2 pos2
            read_enum length_from_cigar s1.max_dist 6 suffix 0 0 [] [] (by omega)
            (by intro y hy; exact absurd hy (List.not_mem_nil y))
            (by intro y hy; exact absurd hy (List.not_mem_nil y))
        | constructor <;> intro y hy <;> exact absurd hy (List.not_mem_nil y)
  have hbwd : (∀ y ∈ bwd.1, y ≠ node_name) ∧ (∀ y ∈ bwd.2.1, y ≠ node_name) := by
    unfold bwd
    split_ifs <;>
      first
        | exact bwdWalk_ne_aux recip spd node_name current_chrom current_pos chrom2 pos2
            read_enum length_from_cigar s1.max_dist 6 prefixRev 0 fwd.2.2 fwd.1 fwd.2.1 (by omega)
            hfwd.1 hfwd.2
        | exact hfwd
  split at hx
  · exact absurd hx (List.not_mem_nil x)
  · replace hx : x ∈ if ¬ bwd.1.isEmpty then bwd.1 else bwd.2.1 := hx
    split at hx
    · exact hbwd.1 x hx
    · exact hbwd.2 x hx

/-! ### Claim C6: the exact bucket of find_other_nodes -/

/-- The scoper state for the C6 failing input: chromosome 0 is current, and a
single within-read deletion (node 0, breakpoints 100 → 290, CIGAR length 1000)
has been registered through `add_item`. -/
def c6_state : PEScoper :=
  add_item ⟨500, 500, 0, [], [[], []]⟩ 0 0 100 0 290 ReadEnum.DELETION 1000

/-- The constantly-false stand-in for the external `span_position_distance`;
it is never consulted on the C6 exact-bucket branch. -/
def c6_spd : ℤ → ℤ → ℤ → ℤ → ReadEnum → ℤ → ℤ → Bool := fun _ _ _ _ _ _ _ => false

lemma c6_span_false : span_distance_lt 100 1000 = false := by
  simp only [span_distance_lt, decide_eq_false_iff_not]
  norm_num

lemma c6_state_eq :
    c6_state = ⟨500, 500, 0, [(100, ⟨0, 290, 0, 1000, ReadEnum.DELETION⟩)],
      [[(100, ⟨0, 290, 0, 1000, ReadEnum.DELETION⟩),
        (290, ⟨0, 100, 0, 1000, ReadEnum.DELETION⟩)], []]⟩ := by
  decide

lemma c6_bwdStep1 :
    bwdStep is_reciprocal_overlapping c6_spd 1 0 105 0 295 ReadEnum.DELETION 100 500
      290 ⟨0, 100, 0, 1000, ReadEnum.DELETION⟩ 0 [] [] = ([0], [], 5) := by
  simp only [bwdStep, c6_span_false]
  decide

lemma c6_bwdStep2 :
    bwdStep is_reciprocal_overlapping c6_spd 1 0 105 0 295 ReadEnum.DELETION 100 500
      100 ⟨0, 290, 0, 1000, ReadEnum.DELETION⟩ 5 [0] [] = ([0], [], 195) := by
  simp only [bwdStep]
  decide

lemma c6_bwdWalk :
    bwdWalk is_reciprocal_overlapping c6_spd 1 0 105 0 295 ReadEnum.DELETION 100 500
      [(290, ⟨0, 100, 0, 1000, ReadEnum.DELETION⟩),
       (100, ⟨0, 290, 0, 1000, ReadEnum.DELETION⟩)] 0 0 [] [] = ([0], [], 195) := by
  rw [bwdWalk.eq_def, dif_neg (by omega)]
  simp only []
  rw [if_neg (by decide), c6_bwdStep1, if_neg (by decide)]
  rw [bwdWalk.eq_def, dif_neg (by omega)]
  simp only []
  rw [if_neg (by decide), c6_bwdStep2, if_pos (by decide)]

/-- Evaluation of `find_other_nodes` at the C6 failing input (shared by the
C6 theorem and the C9 witness). -/
lemma c6_eval :
    (find_other_nodes is_reciprocal_overlapping c6_spd c6_state
        1 0 105 0 295 ReadEnum.DELETION 100).1 = [0] := by
  rw [c6_state_eq]
  unfold find_other_nodes
  rw [if_neg (by decide)]
  rw [if_neg (by decide)]
  lift_lets
  extract_lets loci1 fscope sfx pre fwd bwd
  show (if ¬ bwd.1.isEmpty then bwd.1 else bwd.2.1) = [0]
  have hsfx : sfx = [] := by
    unfold sfx fscope
    decide
  have hpre : pre = [(290, ⟨0, 100, 0, 1000, ReadEnum.DELETION⟩),
      (100, ⟨0, 290, 0, 1000, ReadEnum.DELETION⟩)] := by
    unfold pre fscope
    decide
  have hfwd : fwd = ([], [], 0) := by
    unfold fwd
    rw [hsfx]
    decide
  have hbwd : bwd = ([0], [], 195) := by
    unfold bwd
    rw [hfwd, hpre, if_pos (by decide)]
    exact c6_bwdWalk
  rw [hbwd]
  decide

/-- Claim C6: evaluating `find_other_nodes` at the failing input.  Node 1
queries a deletion with breakpoints 105 → 295 and CIGAR length 100.
`lower_bound(295)` is the end of the forward scope, so only the backward walk
runs; the stored neighbour (node 0) passes the reciprocal-overlap and distance
gates with `sep = |290 − 295| = 5 < 35`, but its span distance is
`|100 − 1000| / 1000 = 0.9 ≥ 0.8`, so the claim says it must be rejected from
the exact bucket and the result be empty.  The code instead returns `[0]`: the
duplicated `found_exact.push_back(node_name2)` at graph.pyx line 510 admits
the neighbour unconditionally.  (`span_position_distance` is instantiated with
the constantly-false function; it is never consulted on this input's exact
branch.  The reciprocal-overlap gate is the spec-modelled
`is_reciprocal_overlapping`, which holds here with overlap 185 of 190.) -/
theorem C6_theorem :
    span_distance_lt 100 1000 = false ∧
    (find_other_nodes is_reciprocal_overlapping c6_spd c6_state
        1 0 105 0 295 ReadEnum.DELETION 100).1 = [0] :=
  ⟨c6_span_false, c6_eval⟩

/-- Claim C9, witness: on the concrete C6 scoper state the query by node 1
returns the non-empty vector `[0]`, and the theorem yields `0 ≠ 1`. -/
theorem C9_witness :
    (0 : ℤ) ∈ (find_other_nodes is_reciprocal_overlapping c6_spd c6_state
        1 0 105 0 295 ReadEnum.DELETION 100).1 ∧ (0 : ℤ) ≠ 1 := by
  have hmem : (0 : ℤ) ∈ (find_other_nodes is_reciprocal_overlapping c6_spd c6_state
      1 0 105 0 295 ReadEnum.DELETION 100).1 := by
    rw [c6_eval]
    exact List.mem_singleton.mpr rfl
  exact ⟨hmem, C9_theorem is_reciprocal_overlapping c6_spd c6_state
    1 0 105 0 295 ReadEnum.DELETION 100 0 hmem⟩

/-! ### Claim C1: proc_component's support estimate -/

/-- A node's stored name tuple `(qname_hash, flag, pos, chrom, tell,
cigar_index, event_pos)` as kept by `NodeToName` (graph.pyx lines 642-668);
`proc_component` reads `key[5]`, the `cigar_index`. -/
structure NodeTuple where
  qname_hash : ℤ
  flag : ℤ
  pos : ℤ
  chrom : ℤ
  tell : ℤ
  cigar_index : ℤ
  event_pos : ℤ
deriving DecidableEq

/-- Embedding of the `support_estimate` accumulation of `proc_component`
(graph.pyx lines 1633-1653): nodes found in `--sites` are skipped (`continue`);
otherwise `if key[5] != -1: support_estimate += 2 else: support_estimate += 1`. -/
def support_estimate (node_to_name : ℤ → NodeTuple) (sites_index : List ℤ)
    (component : List ℤ) : ℤ :=
  component.foldl
    (fun acc v =>
      if v ∈ sites_index then acc
      else if (node_to_name v).cigar_index ≠ -1 then acc + 2 else acc + 1)
    0

/-- A node table mapping every node to a whole-read tuple (`cigar_index = -1`),
for the C1 counterexample and witness. -/
def c1_n2n : ℤ → NodeTuple := fun _ => ⟨0, 0, 0, 0, 0, -1, 0⟩

/-- Claim C1, counterexample: a component consisting of one whole-read node
(`cigar_index = -1`) yields `support_estimate = 1`, not `2` as the claim
states — the source adds 2 for `cigar_index != -1` and 1 for `-1`, the
reverse of the claim. -/
theorem C1_counterexample :
    support_estimate c1_n2n [] [0] = 1 ∧
    2 * (([0] : List ℤ).length : ℤ) = 2 ∧ (1 : ℤ) ≠ 2 := by
  refine ⟨by decide, by decide, by decide⟩

lemma support_estimate_shift (node_to_name : ℤ → NodeTuple) (sites_index : List ℤ) :
    ∀ (component : List ℤ) (a : ℤ),
      component.foldl
        (fun acc v =>
          if v ∈ sites_index then acc
          else if (node_to_name v).cigar_index ≠ -1 then acc + 2 else acc + 1) a
      = a + support_estimate node_to_name sites_index component
  | [], a => by simp [support_estimate]
  | v :: rest, a => by
    rw [support_estimate, List.foldl_cons, List.foldl_cons,
      support_estimate_shift node_to_name sites_index rest,
      support_estimate_shift node_to_name sites_index rest]
    split_ifs <;> ring

/-- Claim C1, amended: each node of the component that is not a `--sites` node
contributes 2 to `support_estimate` when its stored `cigar_index` is NOT `-1`
and 1 when it IS `-1` (the reverse of the claim); hence a component consisting
only of whole-read, non-site nodes has `support_estimate` equal to the
component size, not twice the size. -/
theorem C1_amended_theorem (node_to_name : ℤ → NodeTuple) (sites_index : List ℤ)
    (component : List ℤ) (v : ℤ) :
    (support_estimate node_to_name sites_index (component ++ [v]) =
      support_estimate node_to_name sites_index component +
        (if v ∈ sites_index then 0
         else if (node_to_name v).cigar_index ≠ -1 then 2 else 1)) ∧
    ((∀ u ∈ component, u ∉ sites_index ∧ (node_to_name u).cigar_index = -1) →
      support_estimate node_to_name sites_index component = component.length) := by
  constructor
  · rw [support_estimate, List.foldl_append, List.foldl_cons, List.foldl_nil,
      support_estimate_shift]
    split_ifs <;> ring
  · intro hall
    induction component with
    | nil => simp [support_estimate]
    | cons u rest ih =>
      have hu := hall u (List.mem_cons_self u rest)
      rw [support_estimate, List.foldl_cons, if_neg hu.1, if_neg (by simp [hu.2]),
        support_estimate_shift]
      rw [ih (fun w hw => hall w (List.mem_cons_of_mem u hw))]
      simp only [List.length_cons]
      push_cast
      ring

/-- Claim C1, witness for the amended theorem: a two-node whole-read component
plus one appended node, all with `cigar_index = -1` and no sites. -/
theorem C1_witness :
    (∀ u ∈ ([5, 7] : List ℤ), u ∉ ([] : List ℤ) ∧ (c1_n2n u).cigar_index = -1) ∧
    support_estimate c1_n2n [] ([5, 7] ++ [3]) =
      support_estimate c1_n2n [] [5, 7] +
        (if (3 : ℤ) ∈ ([] : List ℤ) then 0
         else if (c1_n2n 3).cigar_index ≠ -1 then 2 else 1) ∧
    support_estimate c1_n2n [] [5, 7] = ([5, 7] : List ℤ).length := by
  have h := C1_amended_theorem c1_n2n [] [5, 7] 3
  exact ⟨by decide, h.1, h.2 (by decide)⟩

/-! ### Claim C10: process_alignment's paired-end SPLIT mate-unmapped guard -/

/-- Embedding of the control skeleton of `process_alignment` (graph.pyx lines
947-969): the guard `if paired_end and read_enum == SPLIT and flag & 8: return`
executes before any mutation (only local reads of the record precede it); the
whole remainder of the routine — node creation, scoper updates, template
edges, `node_to_name` — is abstracted as an arbitrary continuation `rest`
acting on an arbitrary state type `σ` holding all those structures. -/
def process_alignment (σ : Type) (rest : σ → σ) (paired_end : Bool)
    (read_enum : ReadEnum) (flag : ℕ) (st : σ) : σ :=
  if paired_end ∧ read_enum = ReadEnum.SPLIT ∧ flag &&& 8 ≠ 0 then st
  else rest st

/-- Claim C10: in paired-end mode, a SPLIT record whose flag has bit 8 set
(mate unmapped) makes `process_alignment` return immediately with the state
unchanged — for EVERY possible remainder `rest` of the routine — so no graph
node is created and graph, scopers, template edges and the node-to-name table
are all untouched. -/
theorem C10_theorem (σ : Type) (rest : σ → σ) (paired_end : Bool)
    (read_enum : ReadEnum) (flag : ℕ) (st : σ)
    (hpe : paired_end = true) (hre : read_enum = ReadEnum.SPLIT)
    (hflag : flag &&& 8 ≠ 0) :
    process_alignment σ rest paired_end read_enum flag st = st := by
  unfold process_alignment
  rw [if_pos ⟨by simp [hpe], hre, hflag⟩]

/-- Claim C10, witness: with the successor function as the remainder and flag
9 (paired, mate unmapped), the state `0` is returned unchanged. -/
theorem C10_witness :
    (9 : ℕ) &&& 8 ≠ 0 ∧
    process_alignment ℤ (fun z => z + 1) true ReadEnum.SPLIT 9 0 = 0 :=
  ⟨by decide, C10_theorem ℤ (fun z => z + 1) true ReadEnum.SPLIT 9 0 rfl rfl (by decide)⟩

/-- Modelled from the spec: the graph container interface of section 4.7
(adjacency lists plus a square weight matrix with in-range neighbours). Only
this container is modelled from the spec; the traversal code below is
translated from graph.pyx. -/
structure PyGraph where
  adj : List (List ℕ)
  wtm : List (List ℕ)
  adj_lt : ∀ l ∈ adj, ∀ v ∈ l, v < adj.length
  wtm_len : wtm.length = adj.length
  wtm_rows : ∀ r ∈ wtm, r.length = adj.length

/-- Neighbour list of `u` (empty when `u` is out of range). -/
def nbr (G : PyGraph) (u : ℕ) : List ℕ := G.adj.getD u []

/-- Edge weight between `u` and `v` (0 when out of range). -/
def wt (G : PyGraph) (u v : ℕ) : ℕ := (G.wtm.getD u []).getD v 0

lemma nbr_lt (G : PyGraph) (u : ℕ) : ∀ v ∈ nbr G u, v < G.adj.length := by
  intro v hv
  unfold nbr at hv
  by_cases hu : u < G.adj.length
  · rw [List.getD_eq_getElem?_getD, List.getElem?_eq_getElem hu] at hv
    exact G.adj_lt _ (List.getElem_mem hu) v hv
  · rw [List.getD_eq_getElem?_getD, List.getElem?_eq_none (by omega)] at hv
    exact absurd hv (List.not_mem_nil v)

/-- One step along an edge of weight at least 2. -/
def adj2 (G : PyGraph) (a b : ℕ) : Prop := b ∈ nbr G a ∧ 1 < wt G a b

/-- Connectivity by paths of weight-&ge;2 edges. -/
def reach2 (G : PyGraph) : ℕ → ℕ → Prop := Relation.ReflTransGen (adj2 G)

/-- Embedding of the neighbour scan inside `BFS_local` (graph.pyx lines
1437-1446): unvisited neighbours of `u` joined by an edge of weight above 1 are
marked visited and queued. -/
def bfsInner (G : PyGraph) (u : ℕ) (visited : Finset ℕ) :
    List ℕ → Finset ℕ → List ℕ → Finset ℕ × List ℕ
  | [], found, qadd => (found, qadd)
  | v :: vs, found, qadd =>
    if v ∉ visited ∧ 1 < wt G u v then
      let found1 := insert u found
      if v ∈ found1 then bfsInner G u visited vs found1 qadd
      else bfsInner G u visited vs (insert v found1) (qadd ++ [v])
    else bfsInner G u visited vs found qadd

lemma bfsInner_card (G : PyGraph) (u : ℕ) (visited : Finset ℕ) :
    ∀ (vs : List ℕ) (found : Finset ℕ) (qadd : List ℕ),
    (∀ v ∈ vs, v < G.adj.length) →
    (bfsInner G u visited vs found qadd).2.length
      + (Finset.range G.adj.length \ (bfsInner G u visited vs found qadd).1).card
    ≤ qadd.length + (Finset.range G.adj.length \ found).card
  | [], found, qadd, _ => by simp [bfsInner]
  | v :: vs, found, qadd, hvs => by
    have hvs' : ∀ w ∈ vs, w < G.adj.length := fun w hw => hvs w (List.mem_cons_of_mem v hw)
    have hv : v < G.adj.length := hvs v (List.mem_cons_self v vs)
    rw [bfsInner]
    simp only []
    split_ifs with h1 h2
    · have hmono : (Finset.range G.adj.length \ insert u found).card
          ≤ (Finset.range G.adj.length \ found).card :=
        Finset.card_le_card
          (Finset.sdiff_subset_sdiff (Finset.Subset.refl _) (Finset.subset_insert _ _))
      have := bfsInner_card G u visited vs (insert u found) qadd hvs'
      omega
    · have hvmem : v ∈ Finset.range G.adj.length \ insert u found := by
        rw [Finset.mem_sdiff, Finset.mem_range]
        exact ⟨hv, h2⟩
      have heq : Finset.range G.adj.length \ insert v (insert u found)
          = (Finset.range G.adj.length \ insert u found).erase v := Finset.sdiff_insert _ _ _
      have hcard : (Finset.range G.adj.length \ insert v (insert u found)).card + 1
          = (Finset.range G.adj.length \ insert u found).card := by
        rw [heq, Finset.card_erase_of_mem hvmem]
        have : 0 < (Finset.range G.adj.length \ insert u found).card :=
          Finset.card_pos.mpr ⟨v, hvmem⟩
        omega
      have hmono : (Finset.range G.adj.length \ insert u found).card
          ≤ (Finset.range G.adj.length \ found).card :=
        Finset.card_le_card
          (Finset.sdiff_subset_sdiff (Finset.Subset.refl _) (Finset.subset_insert _ _))
      have := bfsInner_card G u visited vs (insert v (insert u found)) (qadd ++ [v]) hvs'
      rw [List.length_append] at this
      simp only [List.length_singleton] at this
      omega
    · exact bfsInner_card G u visited vs found qadd hvs'

/-- Embedding of the queue loop of `BFS_local` (graph.pyx lines 1432-1448). -/
def bfsLoop (G : PyGraph) (queue : List ℕ) (visited found : Finset ℕ) : Finset ℕ × Finset ℕ :=
  match queue with
  | [] => (found, visited)
  | u :: rest =>
    let p := bfsInner G u visited (nbr G u) found []
    bfsLoop G (rest ++ p.2) (insert u visited) p.1
termination_by 2 * (Finset.range G.adj.length \ found).card + queue.length
decreasing_by
  have h := bfsInner_card G u visited (nbr G u) found [] (nbr_lt G u)
  simp only [List.length_nil, List.length_append, List.length_cons] at h ⊢
  omega

/-- Embedding of `BFS_local` (graph.pyx lines 1432-1448). -/
def BFS_local (G : PyGraph) (source : ℕ) (visited : Finset ℕ) : Finset ℕ × Finset ℕ :=
  bfsLoop G [source] visited ∅

lemma bfsInner_spec (G : PyGraph) (u : ℕ) (visited : Finset ℕ) :
    ∀ (vs : List ℕ) (found : Finset ℕ) (qadd : List ℕ),
    (∀ v ∈ vs, v ∈ nbr G u) →
    (∀ x ∈ qadd, x ∈ (bfsInner G u visited vs found qadd).2) ∧
    (found ⊆ (bfsInner G u visited vs found qadd).1) ∧
    (∀ x ∈ (bfsInner G u visited vs found qadd).2,
       x ∈ qadd ∨ (x ∈ (bfsInner G u visited vs found qadd).1 ∧ x ∈ nbr G u ∧
         1 < wt G u x ∧ x ∉ visited)) ∧
    (∀ x ∈ (bfsInner G u visited vs found qadd).1,
       x ∈ found ∨ x = u ∨ x ∈ (bfsInner G u visited vs found qadd).2) ∧
    (∀ v ∈ vs, v ∉ visited → 1 < wt G u v → v ∈ (bfsInner G u visited vs found qadd).1) ∧
    ((∃ v ∈ vs, v ∉ visited ∧ 1 < wt G u v) → u ∈ (bfsInner G u visited vs found qadd).1)
  | [], found, qadd, _ => by
    refine ⟨fun x hx => hx, fun x hx => hx, fun x hx => Or.inl hx,
      fun x hx => Or.inl hx, fun v hv => absurd hv (List.not_mem_nil v), ?_⟩
    rintro ⟨v, hv, -⟩
    exact absurd hv (List.not_mem_nil v)
  | v :: vs, found, qadd, hvs => by
    have hvs' : ∀ w ∈ vs, w ∈ nbr G u := fun w hw => hvs w (List.mem_cons_of_mem v hw)
    have hvnbr : v ∈ nbr G u := hvs v (List.mem_cons_self v vs)
    rw [bfsInner]
    simp only []
    split_ifs with h1 h2
    · -- v qualifies but is already in found1 = insert u found
      obtain ⟨j0, j1, j2, j3, j4, j5⟩ := bfsInner_spec G u visited vs (insert u found) qadd hvs'
      have hsub : found ⊆ (bfsInner G u visited vs (insert u found) qadd).1 :=
        fun x hx => j1 (Finset.mem_insert_of_mem hx)
      have huin : u ∈ (bfsInner G u visited vs (insert u found) qadd).1 :=
        j1 (Finset.mem_insert_self u found)
      refine ⟨j0, hsub, j2, ?_, ?_, fun _ => huin⟩
      · intro x hx
        rcases j3 x hx with hx' | hx' | hx'
        · rcases Finset.mem_insert.mp hx' with rfl | hx''
          · exact Or.inr (Or.inl rfl)
          · exact Or.inl hx''
        · exact Or.inr (Or.inl hx')
        · exact Or.inr (Or.inr hx')
      · intro w hw hw1 hw2
        rcases List.mem_cons.mp hw with rfl | hw'
        · exact j1 h2
        · exact j4 w hw' hw1 hw2
    · -- v qualifies and is pushed
      obtain ⟨j0, j1, j2, j3, j4, j5⟩ :=
        bfsInner_spec G u visited vs (insert v (insert u found)) (qadd ++ [v]) hvs'
      have hvq : v ∈ (bfsInner G u visited vs (insert v (insert u found)) (qadd ++ [v])).2 :=
        j0 v (List.mem_append.mpr (Or.inr (List.mem_singleton.mpr rfl)))
      have hvf : v ∈ (bfsInner G u visited vs (insert v (insert u found)) (qadd ++ [v])).1 :=
        j1 (Finset.mem_insert_self v _)
      have huf : u ∈ (bfsInner G u visited vs (insert v (insert u found)) (qadd ++ [v])).1 :=
        j1 (Finset.mem_insert_of_mem (Finset.mem_insert_self u found))
      have hsub : found ⊆ (bfsInner G u visited vs (insert v (insert u found)) (qadd ++ [v])).1 :=
        fun x hx => j1 (Finset.mem_insert_of_mem (Finset.mem_insert_of_mem hx))
      refine ⟨?_, hsub, ?_, ?_, ?_, fun _ => huf⟩
      · intro x hx
        exact j0 x (List.mem_append.mpr (Or.inl hx))
      · intro x hx
        rcases j2 x hx with hx' | hx'
        · rcases List.mem_append.mp hx' with hx'' | hx''
          · exact Or.inl hx''
          · have : x = v := List.mem_singleton.mp hx''
            subst this
            exact Or.inr ⟨hvf, hvnbr, h1.2, h1.1⟩
        · exact Or.inr hx'
      · intro x hx
        rcases j3 x hx with hx' | hx' | hx'
        · rcases Finset.mem_insert.mp hx' with rfl | hx''
          · exact Or.inr (Or.inr hvq)
          · rcases Finset.mem_insert.mp hx'' with rfl | hx'''
            · exact Or.inr (Or.inl rfl)
            · exact Or.inl hx'''
        · exact Or.inr (Or.inl hx')
        · exact Or.inr (Or.inr hx')
      · intro w hw hw1 hw2
        rcases List.mem_cons.mp hw with rfl | hw'
        · exact hvf
        · exact j4 w hw' hw1 hw2
    · -- v does not qualify
      obtain ⟨j0, j1, j2, j3, j4, j5⟩ := bfsInner_spec G u visited vs found qadd hvs'
      refine ⟨j0, j1, j2, j3, ?_, ?_⟩
      · intro w hw hw1 hw2
        rcases List.mem_cons.mp hw with rfl | hw'
        · exact absurd ⟨hw1, hw2⟩ h1
        · exact j4 w hw' hw1 hw2
      · rintro ⟨w, hw, hw1, hw2⟩
        rcases List.mem_cons.mp hw with rfl | hw'
        · exact absurd ⟨hw1, hw2⟩ h1
        · exact j5 ⟨w, hw', hw1, hw2⟩

/-- The loop invariant of the BFS (relative to the source node `s` and the
visited set `V₀` at BFS start). -/
def BfsInv (G : PyGraph) (s : ℕ) (V₀ : Finset ℕ) (queue : List ℕ) (V F : Finset ℕ) : Prop :=
  (∀ x ∈ F, reach2 G s x) ∧
  (∀ w ∈ queue, reach2 G s w) ∧
  (∀ w ∈ queue, w = s ∨ w ∈ F) ∧
  (∀ x ∈ F, x ∈ V ∨ x ∈ queue) ∧
  V₀ ⊆ V ∧
  (∀ x ∈ V, x ∈ V₀ ∨ x = s ∨ x ∈ F) ∧
  (∀ x ∈ F, x ∉ V₀) ∧
  (∀ w ∈ queue, w ∉ V₀) ∧
  (∀ x ∈ V, x ∉ V₀ → ∀ y, adj2 G x y → y ∈ F ∨ y ∈ V₀ ∨ y = s)

/-- What holds of the value returned by the BFS loop. -/
def BfsPost (G : PyGraph) (s : ℕ) (V₀ F : Finset ℕ) (r : Finset ℕ × Finset ℕ) : Prop :=
  (∀ x ∈ r.1, reach2 G s x) ∧
  F ⊆ r.1 ∧
  V₀ ⊆ r.2 ∧
  (∀ x ∈ r.2, x ∈ V₀ ∨ x = s ∨ x ∈ r.1) ∧
  (∀ x ∈ r.1, x ∈ r.2) ∧
  (∀ x ∈ r.1, ∀ y, adj2 G x y → y ∈ r.1 ∨ y ∈ V₀ ∨ y = s) ∧
  (∀ x ∈ r.1, x ∉ V₀)

lemma bfsInv_step (G : PyGraph) (s : ℕ) (V₀ : Finset ℕ) (u : ℕ) (rest : List ℕ)
    (V F : Finset ℕ) (hinv : BfsInv G s V₀ (u :: rest) V F) :
    BfsInv G s V₀ (rest ++ (bfsInner G u V (nbr G u) F []).2) (insert u V)
      (bfsInner G u V (nbr G u) F []).1 := by
  obtain ⟨A1, A2, A3, A4, A5, A6, A7, A8, A9⟩ := hinv
  obtain ⟨j0, j1, j2, j3, j4, j5⟩ :=
    bfsInner_spec G u V (nbr G u) F [] (fun v hv => hv)
  have hqreach : reach2 G s u := A2 u (List.mem_cons_self u rest)
  have huV₀ : u ∉ V₀ := A8 u (List.mem_cons_self u rest)
  have hFnew : ∀ x ∈ (bfsInner G u V (nbr G u) F []).1,
      x ∈ F ∨ x = u ∨ (x ∈ nbr G u ∧ 1 < wt G u x ∧ x ∉ V) := by
    intro x hx
    rcases j3 x hx with hx' | hx' | hx'
    · exact Or.inl hx'
    · exact Or.inr (Or.inl hx')
    · rcases j2 x hx' with hx'' | hx''
      · exact absurd hx'' (List.not_mem_nil x)
      · exact Or.inr (Or.inr ⟨hx''.2.1, hx''.2.2.1, hx''.2.2.2⟩)
  have hQnew : ∀ x ∈ (bfsInner G u V (nbr G u) F []).2,
      x ∈ (bfsInner G u V (nbr G u) F []).1 ∧ x ∈ nbr G u ∧ 1 < wt G u x ∧ x ∉ V := by
    intro x hx
    rcases j2 x hx with hx' | hx'
    · exact absurd hx' (List.not_mem_nil x)
    · exact hx'
  refine ⟨?_, ?_, ?_, ?_, ?_, ?_, ?_, ?_, ?_⟩
  · -- A1
    intro x hx
    rcases hFnew x hx with hx' | hx' | hx'
    · exact A1 x hx'
    · exact hx' ▸ hqreach
    · exact Relation.ReflTransGen.tail hqreach ⟨hx'.1, hx'.2.1⟩
  · -- A2
    intro w hw
    rcases List.mem_append.mp hw with hw' | hw'
    · exact A2 w (List.mem_cons_of_mem u hw')
    · exact Relation.ReflTransGen.tail hqreach ⟨(hQnew w hw').2.1, (hQnew w hw').2.2.1⟩
  · -- A3
    intro w hw
    rcases List.mem_append.mp hw with hw' | hw'
    · rcases A3 w (List.mem_cons_of_mem u hw') with h | h
      · exact Or.inl h
      · exact Or.inr (j1 h)
    · exact Or.inr (hQnew w hw').1
  · -- A4
    intro x hx
    rcases j3 x hx with hx' | hx' | hx'
    · rcases A4 x hx' with h | h
      · exact Or.inl (Finset.mem_insert_of_mem h)
      · rcases List.mem_cons.mp h with rfl | h'
        · exact Or.inl (Finset.mem_insert_self x V)
        · exact Or.inr (List.mem_append.mpr (Or.inl h'))
    · exact Or.inl (hx' ▸ Finset.mem_insert_self u V)
    · exact Or.inr (List.mem_append.mpr (Or.inr hx'))
  · -- A5
    exact fun x hx => Finset.mem_insert_of_mem (A5 hx)
  · -- A6
    intro x hx
    rcases Finset.mem_insert.mp hx with rfl | hx'
    · rcases A3 x (List.mem_cons_self x rest) with h | h
      · exact Or.inr (Or.inl h)
      · exact Or.inr (Or.inr (j1 h))
    · rcases A6 x hx' with h | h | h
      · exact Or.inl h
      · exact Or.inr (Or.inl h)
      · exact Or.inr (Or.inr (j1 h))
  · -- A7
    intro x hx
    rcases hFnew x hx with hx' | hx' | hx'
    · exact A7 x hx'
    · exact hx' ▸ huV₀
    · exact fun hc => hx'.2.2 (A5 hc)
  · -- A8
    intro w hw
    rcases List.mem_append.mp hw with hw' | hw'
    · exact A8 w (List.mem_cons_of_mem u hw')
    · exact fun hc => (hQnew w hw').2.2.2 (A5 hc)
  · -- A9
    intro x hx hxV₀ y hy
    rcases Finset.mem_insert.mp hx with rfl | hx'
    · by_cases hyV : y ∈ V
      · rcases A6 y hyV with h | h | h
        · exact Or.inr (Or.inl h)
        · exact Or.inr (Or.inr h)
        · exact Or.inl (j1 h)
      · exact Or.inl (j4 y hy.1 hyV hy.2)
    · rcases A9 x hx' hxV₀ y hy with h | h | h
      · exact Or.inl (j1 h)
      · exact Or.inr (Or.inl h)
      · exact Or.inr (Or.inr h)

lemma bfsLoop_spec (G : PyGraph) (s : ℕ) (V₀ : Finset ℕ) :
    ∀ (queue : List ℕ) (V F : Finset ℕ), BfsInv G s V₀ queue V F →
      BfsPost G s V₀ F (bfsLoop G queue V F) := by
  intro queue V F
  induction queue, V, F using bfsLoop.induct G with
  | case1 V F =>
    intro hinv
    obtain ⟨A1, A2, A3, A4, A5, A6, A7, A8, A9⟩ := hinv
    rw [bfsLoop]
    refine ⟨A1, fun x hx => hx, A5, A6, ?_, ?_, A7⟩
    · intro x hx
      rcases A4 x hx with h | h
      · exact h
      · exact absurd h (List.not_mem_nil x)
    · intro x hx y hy
      have hxV : x ∈ V := by
        rcases A4 x hx with h | h
        · exact h
        · exact absurd h (List.not_mem_nil x)
      exact A9 x hxV (A7 x hx) y hy
  | case2 V F u rest p ih =>
    intro hinv
    rw [bfsLoop]
    have hnext := ih (bfsInv_step G s V₀ u rest V F hinv)
    obtain ⟨j0, j1, j2, j3, j4, j5⟩ := bfsInner_spec G u V (nbr G u) F [] (fun v hv => hv)
    exact ⟨hnext.1, fun x hx => hnext.2.1 (j1 hx), hnext.2.2.1, hnext.2.2.2.1,
      hnext.2.2.2.2.1, hnext.2.2.2.2.2.1, hnext.2.2.2.2.2.2⟩

lemma adj2_symm (G : PyGraph) (hsym : ∀ a b, a ∈ nbr G b ↔ b ∈ nbr G a)
    (hwsym : ∀ a b, wt G a b = wt G b a) {a b : ℕ} (h : adj2 G a b) : adj2 G b a :=
  ⟨(hsym a b).mpr h.1, hwsym b a ▸ h.2⟩

lemma reach2_symm (G : PyGraph) (hsym : ∀ a b, a ∈ nbr G b ↔ b ∈ nbr G a)
    (hwsym : ∀ a b, wt G a b = wt G b a) {a b : ℕ} (h : reach2 G a b) : reach2 G b a := by
  induction h with
  | refl => exact Relation.ReflTransGen.refl
  | tail _ hstep ih => exact Relation.ReflTransGen.head (adj2_symm G hsym hwsym hstep) ih

lemma BFS_local_spec (G : PyGraph) (hsym : ∀ a b, a ∈ nbr G b ↔ b ∈ nbr G a)
    (hwsym : ∀ a b, wt G a b = wt G b a)
    (s : ℕ) (V₀ : Finset ℕ)
    (hV₀c : ∀ x ∈ V₀, ∀ y, adj2 G x y → y ∈ V₀)
    (hs : s ∉ V₀)
    (htrig : ∃ v ∈ nbr G s, v ∉ V₀ ∧ 1 < wt G s v) :
    (∀ x, x ∈ (BFS_local G s V₀).1 ↔ reach2 G s x) ∧
    (∀ x, x ∈ (BFS_local G s V₀).2 ↔ (x ∈ V₀ ∨ x ∈ (BFS_local G s V₀).1)) := by
  obtain ⟨j0, j1, j2, j3, j4, j5⟩ := bfsInner_spec G s V₀ (nbr G s) ∅ [] (fun v hv => hv)
  have hsF : s ∈ (bfsInner G s V₀ (nbr G s) ∅ []).1 := j5 htrig
  have hQprop : ∀ x ∈ (bfsInner G s V₀ (nbr G s) ∅ []).2,
      x ∈ (bfsInner G s V₀ (nbr G s) ∅ []).1 ∧ x ∈ nbr G s ∧ 1 < wt G s x ∧ x ∉ V₀ := by
    intro x hx
    rcases j2 x hx with hx' | hx'
    · exact absurd hx' (List.not_mem_nil x)
    · exact hx'
  have hFprop : ∀ x ∈ (bfsInner G s V₀ (nbr G s) ∅ []).1,
      x = s ∨ (x ∈ nbr G s ∧ 1 < wt G s x ∧ x ∉ V₀) := by
    intro x hx
    rcases j3 x hx with hx' | hx' | hx'
    · exact absurd hx' (Finset.not_mem_empty x)
    · exact Or.inl hx'
    · exact Or.inr ((hQprop x hx').2)
  have hinv : BfsInv G s V₀ ((bfsInner G s V₀ (nbr G s) ∅ []).2) (insert s V₀)
      (bfsInner G s V₀ (nbr G s) ∅ []).1 := by
    refine ⟨?_, ?_, ?_, ?_, fun x hx => Finset.mem_insert_of_mem hx, ?_, ?_, ?_, ?_⟩
    · intro x hx
      rcases hFprop x hx with rfl | hx'
      · exact Relation.ReflTransGen.refl
      · exact Relation.ReflTransGen.single ⟨hx'.1, hx'.2.1⟩
    · intro w hw
      exact Relation.ReflTransGen.single ⟨(hQprop w hw).2.1, (hQprop w hw).2.2.1⟩
    · intro w hw
      exact Or.inr (hQprop w hw).1
    · intro x hx
      rcases j3 x hx with hx' | hx' | hx'
      · exact absurd hx' (Finset.not_mem_empty x)
      · exact Or.inl (hx' ▸ Finset.mem_insert_self s V₀)
      · exact Or.inr hx'
    · intro x hx
      rcases Finset.mem_insert.mp hx with rfl | hx'
      · exact Or.inr (Or.inl rfl)
      · exact Or.inl hx'
    · intro x hx
      rcases hFprop x hx with rfl | hx'
      · exact hs
      · exact hx'.2.2
    · intro w hw
      exact (hQprop w hw).2.2.2
    · intro x hx hxV₀ y hy
      have hxs : x = s := by
        rcases Finset.mem_insert.mp hx with rfl | hx'
        · rfl
        · exact absurd hx' hxV₀
      subst hxs
      by_cases hyV₀ : y ∈ V₀
      · exact Or.inr (Or.inl hyV₀)
      · exact Or.inl (j4 y hy.1 hyV₀ hy.2)
  have hpost := bfsLoop_spec G s V₀ _ _ _ hinv
  have hloop_eq : BFS_local G s V₀
      = bfsLoop G ([] ++ (bfsInner G s V₀ (nbr G s) ∅ []).2) (insert s V₀)
          (bfsInner G s V₀ (nbr G s) ∅ []).1 := by
    rw [BFS_local, bfsLoop]
  rw [List.nil_append] at hloop_eq
  rw [hloop_eq]
  obtain ⟨B1, B2, B3, B4, B5, B6, B7⟩ := hpost
  set r := bfsLoop G ((bfsInner G s V₀ (nbr G s) ∅ []).2) (insert s V₀)
      (bfsInner G s V₀ (nbr G s) ∅ []).1 with hr
  have hsr : s ∈ r.1 := B2 hsF
  have hstep_closed : ∀ x ∈ r.1, ∀ y, adj2 G x y → y ∈ r.1 := by
    intro x hx y hy
    rcases B6 x hx y hy with h | h | h
    · exact h
    · exfalso
      exact B7 x hx (hV₀c y h x (adj2_symm G hsym hwsym hy))
    · exact h ▸ hsr
  constructor
  · intro x
    constructor
    · exact B1 x
    · intro hreach
      induction hreach with
      | refl => exact hsr
      | tail _ hstep ih => exact hstep_closed _ ih _ hstep
  · intro x
    constructor
    · intro hx
      rcases B4 x hx with h | h | h
      · exact Or.inl h
      · exact Or.inr (h ▸ hsr)
      · exact Or.inr h
    · intro hx
      rcases hx with h | h
      · exact B3 h
      · exact B5 x h

/-- Embedding of the inner neighbour loop of `get_partitions` (graph.pyx lines
1460-1467): for each neighbour not yet seen and linked by an edge of weight
`> 1`, run `BFS_local` from `u` (which also grows `seen`), and append the
found set to `parts` when non-empty. -/
def gpInner (G : PyGraph) (u : ℕ) :
    List ℕ → Finset ℕ → List (Finset ℕ) → Finset ℕ × List (Finset ℕ)
  | [], seen, parts => (seen, parts)
  | v :: vs, seen, parts =>
    if v ∈ seen then gpInner G u vs seen parts
    else if 1 < wt G u v then
      let r := BFS_local G u seen
      gpInner G u vs r.2 (if r.1 ≠ ∅ then parts ++ [r.1] else parts)
    else gpInner G u vs seen parts

/-- Embedding of the outer loop of `get_partitions` (graph.pyx lines
1451-1470): nodes already seen are skipped, the neighbour loop may trigger a
BFS, and `u` is inserted into `seen` after its iteration. -/
def gpLoop (G : PyGraph) : List ℕ → Finset ℕ → List (Finset ℕ) → List (Finset ℕ)
  | [], _, parts => parts
  | u :: us, seen, parts =>
    if u ∈ seen then gpLoop G us seen parts
    else
      let r := gpInner G u (nbr G u) seen parts
      gpLoop G us (insert u r.1) r.2

/-- Embedding of `get_partitions` (graph.pyx lines 1451-1470). -/
def get_partitions (G : PyGraph) (nodes : List ℕ) : List (Finset ℕ) :=
  gpLoop G nodes ∅ []

/-- The seen set is closed under weight-&ge;2 adjacency. -/
def ClosedUnder (G : PyGraph) (seen : Finset ℕ) : Prop :=
  ∀ x ∈ seen, ∀ y, adj2 G x y → y ∈ seen

/-- Every produced partition is exactly a weight-&ge;2 connectivity class. -/
def PartsGood (G : PyGraph) (parts : List (Finset ℕ)) : Prop :=
  ∀ p ∈ parts, ∃ t, ∀ y, y ∈ p ↔ reach2 G t y

/-- Every node of every produced partition is in the seen set. -/
def PartsIn (parts : List (Finset ℕ)) (seen : Finset ℕ) : Prop :=
  ∀ p ∈ parts, ∀ x ∈ p, x ∈ seen

/-- The produced partitions are pairwise disjoint. -/
def PartsDisj (parts : List (Finset ℕ)) : Prop :=
  List.Pairwise (fun p q => ∀ x ∈ p, x ∉ q) parts

lemma closed_reach (G : PyGraph) {seen : Finset ℕ} (hc : ClosedUnder G seen) {x y : ℕ}
    (hx : x ∈ seen) (h : reach2 G x y) : y ∈ seen := by
  induction h with
  | refl => exact hx
  | tail _ hstep ih => exact hc _ ih _ hstep

lemma gpInner_spec (G : PyGraph) (hsym : ∀ a b, a ∈ nbr G b ↔ b ∈ nbr G a)
    (hwsym : ∀ a b, wt G a b = wt G b a) (u : ℕ) :
    ∀ (vs : List ℕ) (seen : Finset ℕ) (parts : List (Finset ℕ)),
    (∀ v ∈ vs, v ∈ nbr G u) →
    ClosedUnder G seen →
    (u ∉ seen ∨ (∀ y, adj2 G u y → y ∈ seen)) →
    PartsGood G parts → PartsIn parts seen → PartsDisj parts →
    seen ⊆ (gpInner G u vs seen parts).1 ∧
    ClosedUnder G (gpInner G u vs seen parts).1 ∧
    PartsGood G (gpInner G u vs seen parts).2 ∧
    PartsIn (gpInner G u vs seen parts).2 (gpInner G u vs seen parts).1 ∧
    PartsDisj (gpInner G u vs seen parts).2 ∧
    (∀ v ∈ vs, 1 < wt G u v → v ∈ (gpInner G u vs seen parts).1)
  | [], seen, parts, _, hseenC, _, hgood, hin, hdisj => by
    refine ⟨fun x hx => hx, hseenC, hgood, hin, hdisj,
      fun v hv _ => absurd hv (List.not_mem_nil v)⟩
  | v :: vs, seen, parts, hvs, hseenC, huinv, hgood, hin, hdisj => by
    have hvs' : ∀ w ∈ vs, w ∈ nbr G u := fun w hw => hvs w (List.mem_cons_of_mem v hw)
    have hvnbr : v ∈ nbr G u := hvs v (List.mem_cons_self v vs)
    rw [gpInner]
    simp only []
    by_cases h1 : v ∈ seen
    case pos =>
      rw [if_pos h1]
      have ih := gpInner_spec G hsym hwsym u vs seen parts hvs' hseenC huinv hgood hin hdisj
      refine ⟨ih.1, ih.2.1, ih.2.2.1, ih.2.2.2.1, ih.2.2.2.2.1, ?_⟩
      intro w hw hwt
      rcases List.mem_cons.mp hw with rfl | hw'
      · exact ih.1 h1
      · exact ih.2.2.2.2.2 w hw' hwt
    case neg =>
      rw [if_neg h1]
      by_cases h2 : 1 < wt G u v
      case neg =>
        rw [if_neg h2]
        have ih := gpInner_spec G hsym hwsym u vs seen parts hvs' hseenC huinv hgood hin hdisj
        refine ⟨ih.1, ih.2.1, ih.2.2.1, ih.2.2.2.1, ih.2.2.2.2.1, ?_⟩
        intro w hw hwt
        rcases List.mem_cons.mp hw with rfl | hw'
        · exact absurd hwt h2
        · exact ih.2.2.2.2.2 w hw' hwt
      case pos =>
      rw [if_pos h2]
      have hu : u ∉ seen := by
        rcases huinv with h | h
        · exact h
        · exact absurd (h v ⟨hvnbr, h2⟩) h1
      have hbfs := BFS_local_spec G hsym hwsym u seen hseenC hu ⟨v, hvnbr, h1, h2⟩
      have huF : u ∈ (BFS_local G u seen).1 := (hbfs.1 u).mpr Relation.ReflTransGen.refl
      have hseen_sub : seen ⊆ (BFS_local G u seen).2 :=
        fun x hx => (hbfs.2 x).mpr (Or.inl hx)
      have hF_sub : ∀ x ∈ (BFS_local G u seen).1, x ∈ (BFS_local G u seen).2 :=
        fun x hx => (hbfs.2 x).mpr (Or.inr hx)
      have hF_not_seen : ∀ x ∈ (BFS_local G u seen).1, x ∉ seen := by
        intro x hx hxs
        exact hu (closed_reach G hseenC hxs
          (reach2_symm G hsym hwsym ((hbfs.1 x).mp hx)))
      have hseenC₁ : ClosedUnder G (BFS_local G u seen).2 := by
        intro x hx y hy
        rcases (hbfs.2 x).mp hx with h | h
        · exact (hbfs.2 y).mpr (Or.inl (hseenC x h y hy))
        · refine (hbfs.2 y).mpr (Or.inr ((hbfs.1 y).mpr ?_))
          exact Relation.ReflTransGen.tail ((hbfs.1 x).mp h) hy
      have huinv₁ : u ∉ (BFS_local G u seen).2 ∨
          (∀ y, adj2 G u y → y ∈ (BFS_local G u seen).2) := by
        refine Or.inr (fun y hy => (hbfs.2 y).mpr (Or.inr ((hbfs.1 y).mpr ?_)))
        exact Relation.ReflTransGen.single hy
      have hgood₁ : PartsGood G
          (if (BFS_local G u seen).1 ≠ ∅ then parts ++ [(BFS_local G u seen).1] else parts) := by
        split_ifs with hne
        · intro p hp
          rcases List.mem_append.mp hp with hp' | hp'
          · exact hgood p hp'
          · rw [List.mem_singleton.mp hp']
            exact ⟨u, hbfs.1⟩
        · exact hgood
      have hin₁ : PartsIn
          (if (BFS_local G u seen).1 ≠ ∅ then parts ++ [(BFS_local G u seen).1] else parts)
          (BFS_local G u seen).2 := by
        split_ifs with hne
        · intro p hp
          rcases List.mem_append.mp hp with hp' | hp'
          · exact fun x hx => hseen_sub (hin p hp' x hx)
          · rw [List.mem_singleton.mp hp']
            exact hF_sub
        · exact fun p hp x hx => hseen_sub (hin p hp x hx)
      have hdisj₁ : PartsDisj
          (if (BFS_local G u seen).1 ≠ ∅ then parts ++ [(BFS_local G u seen).1] else parts) := by
        split_ifs with hne
        · rw [PartsDisj, List.pairwise_append]
          refine ⟨hdisj, List.pairwise_singleton _ _, ?_⟩
          intro p hp q hq x hxp
          rw [List.mem_singleton.mp hq]
          intro hxF
          exact hF_not_seen x hxF (hin p hp x hxp)
        · exact hdisj
      have ih := gpInner_spec G hsym hwsym u vs (BFS_local G u seen).2
        (if (BFS_local G u seen).1 ≠ ∅ then parts ++ [(BFS_local G u seen).1] else parts)
        hvs' hseenC₁ huinv₁ hgood₁ hin₁ hdisj₁
      refine ⟨fun x hx => ih.1 (hseen_sub hx), ih.2.1, ih.2.2.1, ih.2.2.2.1,
        ih.2.2.2.2.1, ?_⟩
      intro w hw hwt
      rcases List.mem_cons.mp hw with rfl | hw'
      · refine ih.1 (hF_sub w ((hbfs.1 w).mpr (Relation.ReflTransGen.single ⟨hvnbr, hwt⟩)))
      · exact ih.2.2.2.2.2 w hw' hwt

lemma gpLoop_spec (G : PyGraph) (hsym : ∀ a b, a ∈ nbr G b ↔ b ∈ nbr G a)
    (hwsym : ∀ a b, wt G a b = wt G b a) :
    ∀ (us : List ℕ) (seen : Finset ℕ) (parts : List (Finset ℕ)),
    ClosedUnder G seen → PartsGood G parts → PartsIn parts seen → PartsDisj parts →
    PartsGood G (gpLoop G us seen parts) ∧ PartsDisj (gpLoop G us seen parts)
  | [], seen, parts, _, hgood, _, hdisj => by
    rw [gpLoop]
    exact ⟨hgood, hdisj⟩
  | u :: us, seen, parts, hseenC, hgood, hin, hdisj => by
    rw [gpLoop]
    simp only []
    split_ifs with h1
    · exact gpLoop_spec G hsym hwsym us seen parts hseenC hgood hin hdisj
    · have hinner := gpInner_spec G hsym hwsym u (nbr G u) seen parts (fun v hv => hv)
        hseenC (Or.inl h1) hgood hin hdisj
      refine gpLoop_spec G hsym hwsym us (insert u (gpInner G u (nbr G u) seen parts).1)
        (gpInner G u (nbr G u) seen parts).2 ?_ hinner.2.2.1 ?_ hinner.2.2.2.2.1
      · intro x hx y hy
        rcases Finset.mem_insert.mp hx with rfl | hx'
        · exact Finset.mem_insert_of_mem (hinner.2.2.2.2.2 y hy.1 hy.2)
        · exact Finset.mem_insert_of_mem (hinner.2.1 x hx' y hy)
      · exact fun p hp x hx => Finset.mem_insert_of_mem (hinner.2.2.2.1 p hp x hx)

/-- C7: `get_partitions` never traverses an edge of weight 0 or 1 — every
partition it returns is a set of nodes pairwise connected by paths of edges of
weight at least 2, each partition is maximal (closed under such paths), and
distinct partitions are pairwise disjoint. -/
theorem C7_theorem (G : PyGraph) (nodes : List ℕ)
    (hsym : ∀ a b, a ∈ nbr G b ↔ b ∈ nbr G a)
    (hwsym : ∀ a b, wt G a b = wt G b a) :
    (∀ p ∈ get_partitions G nodes, ∀ x ∈ p, ∀ y ∈ p, reach2 G x y) ∧
    (∀ p ∈ get_partitions G nodes, ∀ x ∈ p, ∀ y, reach2 G x y → y ∈ p) ∧
    List.Pairwise (fun p q => ∀ x ∈ p, x ∉ q) (get_partitions G nodes) := by
  obtain ⟨hgood, hdisj⟩ := gpLoop_spec G hsym hwsym nodes ∅ []
    (fun x hx => absurd hx (Finset.not_mem_empty x))
    (fun p hp => absurd hp (List.not_mem_nil p))
    (fun p hp => absurd hp (List.not_mem_nil p))
    List.Pairwise.nil
  refine ⟨?_, ?_, hdisj⟩
  · intro p hp x hx y hy
    obtain ⟨t, ht⟩ := hgood p hp
    exact Relation.ReflTransGen.trans
      (reach2_symm G hsym hwsym ((ht x).mp hx)) ((ht y).mp hy)
  · intro p hp x hx y hxy
    obtain ⟨t, ht⟩ := hgood p hp
    exact (ht y).mpr (Relation.ReflTransGen.trans ((ht x).mp hx) hxy)

lemma nbr_outside (G : PyGraph) {a : ℕ} (h : G.adj.length ≤ a) : nbr G a = [] := by
  unfold nbr
  rw [List.getD_eq_getElem?_getD, List.getElem?_eq_none (by omega)]
  rfl

lemma nbr_symm_of (G : PyGraph)
    (h : ∀ a, a < G.adj.length → ∀ b, b < G.adj.length → (a ∈ nbr G b ↔ b ∈ nbr G a)) :
    ∀ a b, a ∈ nbr G b ↔ b ∈ nbr G a := by
  intro a b
  by_cases ha : a < G.adj.length
  · by_cases hb : b < G.adj.length
    · exact h a ha b hb
    · constructor
      · intro hab
        rw [nbr_outside G (le_of_not_lt hb)] at hab
        exact absurd hab (List.not_mem_nil a)
      · intro hba
        exact absurd (nbr_lt G a b hba) hb
  · constructor
    · intro hab
      exact absurd (nbr_lt G b a hab) ha
    · intro hba
      rw [nbr_outside G (le_of_not_lt ha)] at hba
      exact absurd hba (List.not_mem_nil b)

lemma wt_outside_left (G : PyGraph) {a b : ℕ} (h : G.adj.length ≤ a) : wt G a b = 0 := by
  unfold wt
  have hnil : G.wtm.getD a [] = [] := by
    rw [List.getD_eq_getElem?_getD, List.getElem?_eq_none (by rw [G.wtm_len]; exact h)]
    rfl
  rw [hnil]
  rfl

lemma wt_outside_right (G : PyGraph) {a b : ℕ} (h : G.adj.length ≤ b) : wt G a b = 0 := by
  unfold wt
  by_cases ha : a < G.wtm.length
  · have hrow : G.wtm.getD a [] = G.wtm[a] := by
      rw [List.getD_eq_getElem?_getD, List.getElem?_eq_getElem ha]
      rfl
    rw [hrow, List.getD_eq_getElem?_getD, List.getElem?_eq_none]
    · rfl
    · rw [G.wtm_rows _ (List.getElem_mem ha)]
      exact h
  · have hnil : G.wtm.getD a [] = [] := by
      rw [List.getD_eq_getElem?_getD, List.getElem?_eq_none (le_of_not_lt ha)]
      rfl
    rw [hnil]
    rfl

lemma wt_symm_of (G : PyGraph)
    (h : ∀ a, a < G.adj.length → ∀ b, b < G.adj.length → wt G a b = wt G b a) :
    ∀ a b, wt G a b = wt G b a := by
  intro a b
  by_cases ha : a < G.adj.length
  · by_cases hb : b < G.adj.length
    · exact h a ha b hb
    · rw [wt_outside_right G (le_of_not_lt hb), wt_outside_left G (le_of_not_lt hb)]
  · rw [wt_outside_left G (le_of_not_lt ha), wt_outside_right G (le_of_not_lt ha)]

/-- Concrete four-node graph: edges 0-1 and 2-3 have weight 2, edge 1-2 has
weight 1, so the weight-1 edge must separate the partitions. -/
def Gex : PyGraph :=
  ⟨[[1], [0, 2], [1, 3], [2]],
   [[0, 2, 0, 0], [2, 0, 1, 0], [0, 1, 0, 2], [0, 0, 2, 0]],
   by decide, by decide, by decide⟩

/-- Witness for C7 at the concrete graph `Gex` and node list [0, 1, 2, 3]. -/
theorem C7_witness :
    (∀ p ∈ get_partitions Gex [0, 1, 2, 3], ∀ x ∈ p, ∀ y ∈ p, reach2 Gex x y) ∧
    (∀ p ∈ get_partitions Gex [0, 1, 2, 3], ∀ x ∈ p, ∀ y, reach2 Gex x y → y ∈ p) ∧
    List.Pairwise (fun p q => ∀ x ∈ p, x ∉ q) (get_partitions Gex [0, 1, 2, 3]) :=
  C7_theorem Gex [0, 1, 2, 3]
    (nbr_symm_of Gex (by decide))
    (wt_symm_of Gex (by decide))

end Dysgu
